import Mathlib

/-!
# free_fire.c : sorting, searching and the menu session

A shallow embedding of `src/free_fire.c`.

* A `char` buffer (`nome`, `tipo`, the search key) is a `List Nat` of byte
  values (read as `unsigned char`); the C string it holds ends at the first
  byte `0`, or at the end of the list.
* The array `Componente arr[]` together with its length `n` is a
  `List Componente`; `arr[i]` is `pos arr i`, `arr[i] = v` is `arr.set i v`.
  At an index outside the array `pos` gives a fixed record and `set` does
  nothing.
* Every `for` loop is a recursion on the number of iterations still to run,
  with the loop index carried along; so is the `while` loop of the insertion
  sort, whose index only goes down. The `while` loop of the binary search
  takes a bound on its iterations and answers `none` if it reaches it.
* `long *comparacoes` is a `Nat` counter returned next to the array.
* The menu loop of `main` is a step function on the variables that live
  across turns, fed with what each turn reads from outside.
-/

namespace FreeFire

/-! ## Data model -/

/-- The record `Componente` of lines 26-30: two byte buffers and an `int`. -/
structure Componente where
  nome : List Nat
  tipo : List Nat
  prioridade : Int
deriving DecidableEq, Repr

instance : Inhabited Componente := ⟨⟨[], [], 0⟩⟩

/-- The read `arr[i]`. -/
def pos (arr : List Componente) (i : Nat) : Componente := arr.getD i default

/-- The C string held by a buffer: the bytes before the first `0`. -/
def cstr : List Nat → List Nat
  | [] => []
  | x :: xs => if x = 0 then [] else x :: cstr xs

/-- The libc `strcmp`: walks both strings, the end of a buffer standing for the
terminating `0`; at the first position where the bytes differ it returns
their difference, and `0` when both strings end together. The program only
looks at the sign of the result. -/
def strcmp : List Nat → List Nat → Int
  | [], [] => 0
  | [], y :: _ => -(y : Int)
  | x :: _, [] => (x : Int)
  | x :: xs, y :: ys =>
    if x = y then (if x = 0 then 0 else strcmp xs ys) else (x : Int) - (y : Int)

/-! ## bubbleSortNome (lines 72-88) -/

/-- The three statements of lines 80-82: `tmp = arr[j]; arr[j] = arr[j+1];
arr[j+1] = tmp;`. -/
def trocaAdj (arr : List Componente) (j : Nat) : List Componente :=
  let tmp := pos arr j
  let arr1 := arr.set j (pos arr (j + 1))
  arr1.set (j + 1) tmp

/-- The inner loop `for (j = 0; j < n-1-i; j++)` of lines 77-85. The first
argument is the number of iterations left, the second is `j`; the state is
`(arr, *comparacoes, trocou)`. -/
def bubblePass : Nat → Nat → List Componente × Nat × Bool → List Componente × Nat × Bool
  | 0, _, s => s
  | k + 1, j, (arr, cnt, trocou) =>
    if strcmp (pos arr j).nome (pos arr (j + 1)).nome > 0 then
      bubblePass k (j + 1) (trocaAdj arr j, cnt + 1, true)
    else
      bubblePass k (j + 1) (arr, cnt + 1, trocou)

/-- The outer loop `for (i = 0; i < n-1; i++)` of lines 75-87, with its
`break` when a pass swapped nothing. The first argument is the number of
iterations left, then `n` and `i`. -/
def bubbleOuter : Nat → Nat → Nat → List Componente × Nat → List Componente × Nat
  | 0, _, _, s => s
  | k + 1, n, i, (arr, cnt) =>
    match bubblePass (n - 1 - i) 0 (arr, cnt, false) with
    | (arr1, cnt1, trocou) =>
      if trocou = false then (arr1, cnt1) else bubbleOuter k n (i + 1) (arr1, cnt1)

/-- `bubbleSortNome(arr, n, &comparacoes)` with `n` the length of `arr`:
the array after the call and the value left in `*comparacoes`. -/
def bubbleSortNome (arr : List Componente) : List Componente × Nat :=
  bubbleOuter (arr.length - 1) arr.length 0 (arr, 0)

/-! ## insertionSortTipo (lines 92-109) -/

/-- The loop `while (j >= 0)` of lines 98-106 followed by `arr[j+1] = chave`
(line 107). The first argument is `j + 1` (so `0` stands for `j = -1`). -/
def insertLoop (chave : Componente) : Nat → List Componente × Nat → List Componente × Nat
  | 0, (arr, cnt) => (arr.set 0 chave, cnt)
  | j + 1, (arr, cnt) =>
    if strcmp (pos arr j).tipo chave.tipo > 0 then
      insertLoop chave j (arr.set (j + 1) (pos arr j), cnt + 1)
    else
      (arr.set (j + 1) chave, cnt + 1)

/-- The loop `for (i = 1; i < n; i++)` of lines 94-108; the first argument is
the number of iterations left, the second is `i`. -/
def insertOuter : Nat → Nat → List Componente × Nat → List Componente × Nat
  | 0, _, s => s
  | k + 1, i, (arr, cnt) => insertOuter k (i + 1) (insertLoop (pos arr i) i (arr, cnt))

/-- `insertionSortTipo(arr, n, &comparacoes)` with `n` the length of `arr`. -/
def insertionSortTipo (arr : List Componente) : List Componente × Nat :=
  insertOuter (arr.length - 1) 1 (arr, 0)

/-! ## selectionSortPrioridade (lines 113-129) -/

/-- The inner loop `for (j = i+1; j < n; j++)` of lines 117-122: the first
argument is the number of iterations left, the second is `j`; the state is
`(idxMin, *comparacoes)`. -/
def selMin (arr : List Componente) : Nat → Nat → Nat × Nat → Nat × Nat
  | 0, _, s => s
  | k + 1, j, (idxMin, cnt) =>
    if (pos arr j).prioridade < (pos arr idxMin).prioridade then
      selMin arr k (j + 1) (j, cnt + 1)
    else
      selMin arr k (j + 1) (idxMin, cnt + 1)

/-- Lines 124-126: `tmp = arr[i]; arr[i] = arr[idxMin]; arr[idxMin] = tmp;`. -/
def troca (arr : List Componente) (i idxMin : Nat) : List Componente :=
  let tmp := pos arr i
  let arr1 := arr.set i (pos arr idxMin)
  arr1.set idxMin tmp

/-- The outer loop `for (i = 0; i < n-1; i++)` of lines 115-128; the first
argument is the number of iterations left, then `n` and `i`. -/
def selOuter : Nat → Nat → Nat → List Componente × Nat → List Componente × Nat
  | 0, _, _, s => s
  | k + 1, n, i, (arr, cnt) =>
    match selMin arr (n - (i + 1)) (i + 1) (i, cnt) with
    | (idxMin, cnt1) =>
      if idxMin ≠ i then selOuter k n (i + 1) (troca arr i idxMin, cnt1)
      else selOuter k n (i + 1) (arr, cnt1)

/-- `selectionSortPrioridade(arr, n, &comparacoes)` with `n` the length of
`arr`. -/
def selectionSortPrioridade (arr : List Componente) : List Componente × Nat :=
  selOuter (arr.length - 1) arr.length 0 (arr, 0)

/-! ## buscaBinariaPorNome (lines 134-146) -/

/-- What a call of `buscaBinariaPorNome` leaves behind: the returned `int`,
the value of `*comparacoes`, and (not in the C code, kept for the proofs) the
list of the indices `mid` at which `arr[mid]` was read, in order. -/
structure ResultadoBusca where
  idx : Int
  comparacoes : Nat
  sondas : List Int
deriving DecidableEq, Repr

/-- The loop `while (low <= high)` of lines 137-144 and the `return -1` of
line 145. `low`, `high` and `mid` are C `int`s; inside the loop
`high - low` is not negative, so the C division by 2 is the division used
here. The first argument bounds the number of iterations: `none` means the
bound was reached with the loop still running. -/
def buscaLoop (arr : List Componente) (chave : List Nat) :
    Nat → Int → Int → Nat → List Int → Option ResultadoBusca
  | 0, low, high, cnt, sondas =>
    if low ≤ high then none else some ⟨-1, cnt, sondas⟩
  | fuel + 1, low, high, cnt, sondas =>
    if low ≤ high then
      let mid := low + (high - low) / 2
      let cmp := strcmp (pos arr mid.toNat).nome chave
      if cmp = 0 then some ⟨mid, cnt + 1, sondas ++ [mid]⟩
      else if cmp < 0 then buscaLoop arr chave fuel (mid + 1) high (cnt + 1) (sondas ++ [mid])
      else buscaLoop arr chave fuel low (mid - 1) (cnt + 1) (sondas ++ [mid])
    else some ⟨-1, cnt, sondas⟩

/-- `buscaBinariaPorNome(arr, n, chave, &comparacoes)` with `n` the length of
`arr`; the loop is given `n` iterations. -/
def buscaBinariaPorNome (arr : List Componente) (chave : List Nat) : Option ResultadoBusca :=
  buscaLoop arr chave arr.length 0 ((arr.length : Int) - 1) 0 []

/-! ## The menu session of `main` (lines 217-323) -/

/-- `medirTempo` (lines 151-156): calls the algorithm it is given on the
array; the two `clock()` readings and the returned duration are left out. -/
def medirTempo (algoritmo : List Componente → List Componente × Nat)
    (arr : List Componente) : List Componente × Nat :=
  algoritmo arr

/-- `copiarArray` (lines 159-164): `NULL` when `malloc` fails, otherwise a
fresh block holding the `n` records of `origem`. Whether `malloc` succeeds
is an input. -/
def copiarArray (mallocOk : Bool) (origem : List Componente) : Option (List Componente) :=
  if mallocOk then some origem else none

/-- The variables of `main` that live across iterations of the menu loop:
`componentes`, `arrTrabalho` (`none` is `NULL`), `comparacoes`, `chave`. -/
structure Sessao where
  componentes : List Componente
  arrTrabalho : Option (List Componente)
  comparacoes : Nat
  chave : List Nat
deriving DecidableEq, Repr

/-- What one turn of the menu loop takes from outside: the value of `opcao`
after the `scanf` of line 233 (`-1` when it fails), whether the `malloc` of
`copiarArray` succeeds (options 2-4), and the line read into `chave` by
lines 298-299 (option 5 with a working copy). -/
structure Entrada where
  opcao : Int
  mallocOk : Bool
  chave : List Nat
deriving DecidableEq, Repr

/-- What one turn of the menu loop prints. -/
inductive Saida where
  /-- Output of `mostrarComponentes` on an array -/
  | lista (arr : List Componente)
  /-- Header and comparison count of a sort run (the option number tells which) -/
  | resultado (opcao : Int) (comparacoes : Nat)
  /-- Line 249, 265 or 280: "Erro ao alocar memória para cópia." -/
  | erroAlocacao
  /-- Line 293: "Aviso: nenhum vetor ordenado disponível. ..." -/
  | avisoSemVetor
  /-- Lines 303-310: the outcome of the call of `buscaBinariaPorNome` -/
  | busca (r : Option ResultadoBusca)
  /-- Line 315: "Encerrando..." -/
  | encerrando
  /-- Line 319: "Opcao invalida. Tente novamente." -/
  | opcaoInvalida
deriving DecidableEq, Repr

/-- The common shape of `case 2`, `case 3` and `case 4` (lines 244-289):
`free(arrTrabalho)`, clone `componentes`, and on success run the algorithm
through `medirTempo` on the clone and print. -/
def casoOrdenar (algoritmo : List Componente → List Componente × Nat)
    (s : Sessao) (e : Entrada) : Sessao × List Saida :=
  match copiarArray e.mallocOk s.componentes with
  | none => ({ s with arrTrabalho := none }, [Saida.erroAlocacao])
  | some copia =>
    match medirTempo algoritmo copia with
    | (arr, cnt) =>
      ({ s with arrTrabalho := some arr, comparacoes := cnt },
        [Saida.resultado e.opcao cnt, Saida.lista arr])

/-- The function whose address options 2, 3 and 4 pass to `medirTempo`. -/
def algoritmoDe (opcao : Int) : List Componente → List Componente × Nat :=
  if opcao = 2 then bubbleSortNome
  else if opcao = 3 then insertionSortTipo
  else selectionSortPrioridade

/-- One turn of the `switch (opcao)` of lines 239-321. -/
def passo (s : Sessao) (e : Entrada) : Sessao × List Saida :=
  if e.opcao = 1 then (s, [Saida.lista s.componentes])
  else if e.opcao = 2 then casoOrdenar bubbleSortNome s e
  else if e.opcao = 3 then casoOrdenar insertionSortTipo s e
  else if e.opcao = 4 then casoOrdenar selectionSortPrioridade s e
  else if e.opcao = 5 then
    match s.arrTrabalho with
    | none => (s, [Saida.avisoSemVetor])
    | some w =>
      ({ s with chave := e.chave }, [Saida.busca (buscaBinariaPorNome w e.chave)])
  else if e.opcao = 6 then (s, [Saida.encerrando])
  else (s, [Saida.opcaoInvalida])

/-- The loop `do { ... } while (opcao != 6)` of lines 224-323 run on a list of
inputs: it stops after the turn whose option is 6 (or when the inputs end). -/
def executar : Sessao → List Entrada → Sessao × List Saida
  | s, [] => (s, [])
  | s, e :: es =>
    match passo s e with
    | (s1, out1) =>
      if e.opcao = 6 then (s1, out1)
      else
        match executar s1 es with
        | (s2, out2) => (s2, out1 ++ out2)

/-- The state on entry to the menu loop (lines 218-222) once the records are
read: no working copy, counter 0. -/
def inicio (componentes : List Componente) : Sessao :=
  ⟨componentes, none, 0, []⟩

/-- Whether an option is one of the three sort requests. -/
def ehOrdenacao (opcao : Int) : Bool :=
  opcao = 2 || opcao = 3 || opcao = 4

/-- The most recent sort request among the turns the loop runs on a list of
inputs (those up to the first option 6), if there is one. -/
def ultimaOrdenacao : List Entrada → Option Entrada
  | [] => none
  | e :: es =>
    if e.opcao = 6 then none
    else
      match ultimaOrdenacao es with
      | some c => some c
      | none => if ehOrdenacao e.opcao then some e else none

/-- The working copy the most recent sort request leaves: none when there was
no request or its clone could not be made, otherwise the output of its
algorithm on the original records. -/
def copiaEsperada (componentes : List Componente) (cmds : List Entrada) :
    Option (List Componente) :=
  match ultimaOrdenacao cmds with
  | none => none
  | some c => if c.mallocOk then some (algoritmoDe c.opcao componentes).1 else none

/-! ## Sample data -/

/-- The bytes of "Ana". -/
def sAna : List Nat := [65, 110, 97]
/-- The bytes of "Mid". -/
def sMid : List Nat := [77, 105, 100]
/-- The bytes of "Zed". -/
def sZed : List Nat := [90, 101, 100]
/-- The bytes of "Rifle". -/
def sRifle : List Nat := [82, 105, 102, 108, 101]
/-- The bytes of "Armor". -/
def sArmor : List Nat := [65, 114, 109, 111, 114]
/-- The bytes of "Medkit". -/
def sMedkit : List Nat := [77, 101, 100, 107, 105, 116]

/-- The record ("Zed","Rifle",3). -/
def cZed : Componente := ⟨sZed, sRifle, 3⟩
/-- The record ("Ana","Armor",1). -/
def cAna : Componente := ⟨sAna, sArmor, 1⟩
/-- The record ("Mid","Medkit",2). -/
def cMid : Componente := ⟨sMid, sMedkit, 2⟩

/-- Three records whose order by type (Armor, Medkit, Rifle) is not their
order by name: ("Ana","Rifle",1), ("Zed","Armor",2), ("Mid","Medkit",3). -/
def dadosTipo : List Componente :=
  [⟨sAna, sRifle, 1⟩, ⟨sZed, sArmor, 2⟩, ⟨sMid, sMedkit, 3⟩]

/-! ## Loop invariants -/

/-- Invariant of the inner loop of `bubbleSortNome` at index `j`, for a pass
that started from `arr0` and ends at index `fim`: the array is a
rearrangement of `arr0`, nothing beyond `j` has moved, `arr[j]` is the
largest name of `arr[0..j]`, the cells up to `j` hold records that started
within `0..fim`, and while `trocou` is still 0 the array is `arr0` itself and
`arr[0..j]` is in order. -/
structure PassInv (arr0 : List Componente) (fim : Nat) (arr : List Componente)
    (j : Nat) (trocou : Bool) : Prop where
  perm : arr.Perm arr0
  resto : ∀ p, j < p → pos arr p = pos arr0 p
  maior : ∀ p, p ≤ j → strcmp (pos arr p).nome (pos arr j).nome ≤ 0
  origem : ∀ p, p ≤ j → ∃ q, q ≤ fim ∧ pos arr p = pos arr0 q
  semTroca : trocou = false →
    arr = arr0 ∧ ∀ p, p < j → strcmp (pos arr p).nome (pos arr (p + 1)).nome ≤ 0

/-- Invariant of the outer loop of `bubbleSortNome` before pass `i`: each of
the last `i` cells holds a name at least as large as every name before it. -/
def FinalNome (n i : Nat) (arr : List Componente) : Prop :=
  ∀ p q, p < q → n - i ≤ q → q < n → strcmp (pos arr p).nome (pos arr q).nome ≤ 0

/-- Invariant of the `while` loop of `insertionSortTipo` for the key taken at
index `i`, stated on `h`, the array with the key written into the free cell
`j1 = j + 1`: `h` is a rearrangement of `arr0`, the cells `0..i` other than
the free one are in order by type, and the cells after the free one up to
`i` hold types strictly greater than the key's. -/
structure InsInv (arr0 : List Componente) (i : Nat) (chave : Componente)
    (h : List Componente) (j1 : Nat) : Prop where
  perm : h.Perm arr0
  ordem : ∀ p q, p < q → q ≤ i → p ≠ j1 → q ≠ j1 →
    strcmp (pos h p).tipo (pos h q).tipo ≤ 0
  maiores : ∀ q, j1 < q → q ≤ i → strcmp (pos h q).tipo chave.tipo > 0

/-- Three records with priorities 2, 2, 1 and the names Ana, Mid, Zed. -/
def dadosEmpate : List Componente :=
  [⟨sAna, sRifle, 2⟩, ⟨sMid, sRifle, 2⟩, ⟨sZed, sArmor, 1⟩]

/-- Three records all named "Mid", told apart by their types and priorities. -/
def dadosIguais : List Componente :=
  [⟨sMid, sArmor, 1⟩, ⟨sMid, sMedkit, 2⟩, ⟨sMid, sRifle, 3⟩]

/-! ## Counting the comparisons of the insertion sort -/

/-- The number of indices `k < i` with `type[k] > type[i]` under `strcmp`. -/
def inversoesAte (arr : List Componente) (i : Nat) : Nat :=
  ((List.range i).filter
    (fun k => decide (strcmp (pos arr k).tipo (pos arr i).tipo > 0))).length

/-- The number of inversions by type: the pairs `k < i` (with `i < n`) such
that `type[k] > type[i]`. -/
def inversoesTipo (arr : List Componente) : Nat :=
  ((List.range arr.length).map (inversoesAte arr)).sum

/-- Whether some index `k < i` has `type[k] <= type[i]` under `strcmp`. -/
def temAnteriorMenorOuIgual (arr : List Componente) (i : Nat) : Bool :=
  (List.range i).any (fun k => decide (strcmp (pos arr k).tipo (pos arr i).tipo ≤ 0))

/-- The number of indices `i < n` for which some earlier record has a type
not greater than `type[i]` (index 0 has no earlier record and never counts). -/
def paradasTipo (arr : List Componente) : Nat :=
  ((List.range arr.length).filter (temAnteriorMenorOuIgual arr)).length

/-! ## Facts about `strcmp` -/

theorem strcmp_self (a : List Nat) : strcmp a a = 0 := by
  induction a with
  | nil => rfl
  | cons x xs ih => simp [strcmp, ih]

theorem strcmp_neg : ∀ a b : List Nat, strcmp b a = -strcmp a b
  | [], [] => by simp [strcmp]
  | [], y :: _ => by simp [strcmp]
  | x :: _, [] => by simp [strcmp]
  | x :: xs, y :: ys => by
    simp only [strcmp]
    by_cases h : x = y
    · subst h
      by_cases h0 : x = 0
      · simp [h0]
      · simp [h0, strcmp_neg xs ys]
    · have h' : ¬ y = x := fun e => h e.symm
      simp [h, h']

theorem strcmp_trans : ∀ a b c : List Nat,
    strcmp a b ≤ 0 → strcmp b c ≤ 0 → strcmp a c ≤ 0
  | [], [], c => by intro _ h; exact h
  | [], y :: ys, [] => by simp [strcmp]
  | [], y :: ys, z :: zs => by
    simp only [strcmp]; intro h1 h2; split_ifs at h2 <;> omega
  | x :: xs, [], c => by
    intro h1 h2
    have hx : x = 0 := by simp [strcmp] at h1; omega
    subst hx
    cases c with
    | nil => simp [strcmp]
    | cons z zs => simp only [strcmp]; split_ifs <;> simp_all
  | x :: xs, y :: ys, [] => by
    simp only [strcmp]; intro h1 h2; split_ifs at h1 <;> omega
  | x :: xs, y :: ys, z :: zs => by
    simp only [strcmp]
    intro h1 h2
    have ih := strcmp_trans xs ys zs
    split_ifs at h1 h2 ⊢ <;> omega

theorem strcmp_eq_zero_iff : ∀ a b : List Nat, strcmp a b = 0 ↔ cstr a = cstr b
  | [], [] => by simp [strcmp, cstr]
  | [], y :: ys => by
    simp only [strcmp, cstr]; split_ifs <;> simp_all
  | x :: xs, [] => by
    simp only [strcmp, cstr]; split_ifs <;> simp_all
  | x :: xs, y :: ys => by
    simp only [strcmp, cstr]
    have ih := strcmp_eq_zero_iff xs ys
    split_ifs <;> simp_all
    omega

/-- Swapping the arguments of a positive `strcmp` gives a non-positive one. -/
theorem strcmp_le_of_gt {a b : List Nat} (h : strcmp a b > 0) : strcmp b a ≤ 0 := by
  rw [strcmp_neg a b]; omega

/-- A non-positive `strcmp` is what the failed test `strcmp(..) > 0` leaves. -/
theorem strcmp_le_of_not_gt {a b : List Nat} (h : ¬ strcmp a b > 0) : strcmp a b ≤ 0 := by
  omega

/-! ## Facts about array reads and writes -/

theorem pos_eq_getElem (arr : List Componente) (i : Nat) (h : i < arr.length) :
    pos arr i = arr[i] := by
  simp [pos, h]

theorem pos_set (arr : List Componente) (i j : Nat) (v : Componente) :
    pos (arr.set i v) j = if i = j ∧ i < arr.length then v else pos arr j := by
  unfold pos
  simp only [List.getD_eq_getElem?_getD, List.getElem?_set]
  by_cases hij : i = j
  · subst hij
    by_cases hi : i < arr.length
    · simp [hi]
    · simp [hi, List.getElem?_eq_none (Nat.le_of_not_lt hi)]
  · simp [hij]

theorem pos_troca (arr : List Componente) (i m p : Nat)
    (hi : i < arr.length) (hm : m < arr.length) :
    pos (troca arr i m) p =
      if p = m then pos arr i else if p = i then pos arr m else pos arr p := by
  simp only [troca, pos_set, List.length_set]
  by_cases h1 : m = p
  · subst h1; simp [hm]
  · have h1' : ¬ p = m := fun e => h1 e.symm
    by_cases h2 : i = p
    · subst h2; simp [h1, h1', hi]
    · have h2' : ¬ p = i := fun e => h2 e.symm
      simp [h1, h2, h1', h2']

theorem length_troca (arr : List Componente) (i m : Nat) :
    (troca arr i m).length = arr.length := by
  simp [troca]

theorem trocaAdj_eq_troca (arr : List Componente) (j : Nat) :
    trocaAdj arr j = troca arr j (j + 1) := rfl

/-- Writing `x` at place `j` and putting the old `arr[j]` in front only
reorders `x :: arr`. -/
theorem set_perm_cons (x : Componente) :
    ∀ (l : List Componente) (j : Nat), j < l.length →
      (pos l j :: l.set j x).Perm (x :: l)
  | [], _, h => by simp at h
  | a :: t, 0, _ => by
    simpa [pos] using List.Perm.swap x a t
  | a :: t, j + 1, h => by
    have ih := set_perm_cons x t j (by simpa using h)
    have e : pos (a :: t) (j + 1) = pos t j := by simp [pos]
    rw [e, List.set_cons_succ]
    exact ((List.Perm.swap a (pos t j) _).trans (ih.cons a)).trans (List.Perm.swap x a t)

/-- The exchange of two cells of the array is a permutation. -/
theorem troca_perm : ∀ (arr : List Componente) (i m : Nat),
    i < arr.length → m < arr.length → (troca arr i m).Perm arr
  | [], _, _, h, _ => by simp at h
  | a :: t, 0, 0, _, _ => by simp [troca, pos]
  | a :: t, 0, m + 1, _, hm => by
    have h := set_perm_cons a t m (by simpa using hm)
    simpa [troca, pos] using h
  | a :: t, i + 1, 0, hi, _ => by
    have h := set_perm_cons a t i (by simpa using hi)
    simpa [troca, pos] using h
  | a :: t, i + 1, m + 1, hi, hm => by
    have h := troca_perm t i m (by simpa using hi) (by simpa using hm)
    simpa [troca, pos] using h


/-! ## bubbleSortNome: the inner pass -/

theorem passInv_init (arr0 : List Componente) (fim : Nat) : PassInv arr0 fim arr0 0 false where
  perm := List.Perm.refl _
  resto := fun _ _ => rfl
  maior := fun p hp => by
    have : p = 0 := by omega
    subst this; exact le_of_eq (strcmp_self _)
  origem := fun p hp => ⟨0, Nat.zero_le _, by
    have : p = 0 := by omega
    subst this; rfl⟩
  semTroca := fun _ => ⟨rfl, fun p hp => by omega⟩

theorem passInv_swap {arr0 arr : List Componente} {fim j : Nat} {t : Bool}
    (h : PassInv arr0 fim arr j t) (hj : j < fim) (hfim : fim < arr0.length)
    (hgt : strcmp (pos arr j).nome (pos arr (j + 1)).nome > 0) :
    PassInv arr0 fim (trocaAdj arr j) (j + 1) true := by
  have hlen : arr.length = arr0.length := h.perm.length_eq
  have hp : ∀ p, pos (trocaAdj arr j) p =
      if p = j + 1 then pos arr j else if p = j then pos arr (j + 1) else pos arr p :=
    fun p => by
      rw [trocaAdj_eq_troca]
      exact pos_troca arr j (j + 1) p (by omega) (by omega)
  refine ⟨?_, ?_, ?_, ?_, ?_⟩
  · rw [trocaAdj_eq_troca]
    exact (troca_perm arr j (j + 1) (by omega) (by omega)).trans h.perm
  · intro p hpj
    rw [hp p, if_neg (by omega), if_neg (by omega)]
    exact h.resto p (by omega)
  · intro p hpj
    rw [hp (j + 1), if_pos rfl, hp p]
    by_cases h1 : p = j + 1
    · rw [if_pos h1]; exact le_of_eq (strcmp_self _)
    · rw [if_neg h1]
      by_cases h2 : p = j
      · rw [if_pos h2]; exact strcmp_le_of_gt hgt
      · rw [if_neg h2]; exact h.maior p (by omega)
  · intro p hpj
    rw [hp p]
    by_cases h1 : p = j + 1
    · rw [if_pos h1]; exact h.origem j (le_refl _)
    · rw [if_neg h1]
      by_cases h2 : p = j
      · rw [if_pos h2]; exact ⟨j + 1, by omega, h.resto (j + 1) (by omega)⟩
      · rw [if_neg h2]; exact h.origem p (by omega)
  · intro hc; cases hc

theorem passInv_keep {arr0 arr : List Componente} {fim j : Nat} {t : Bool}
    (h : PassInv arr0 fim arr j t) (hj : j < fim)
    (hle : ¬ strcmp (pos arr j).nome (pos arr (j + 1)).nome > 0) :
    PassInv arr0 fim arr (j + 1) t := by
  have hle' := strcmp_le_of_not_gt hle
  refine ⟨h.perm, fun p hpj => h.resto p (by omega), ?_, ?_, ?_⟩
  · intro p hpj
    by_cases h1 : p = j + 1
    · subst h1; exact le_of_eq (strcmp_self _)
    · exact strcmp_trans _ _ _ (h.maior p (by omega)) hle'
  · intro p hpj
    by_cases h1 : p = j + 1
    · subst h1; exact ⟨j + 1, by omega, h.resto (j + 1) (by omega)⟩
    · exact h.origem p (by omega)
  · intro ht
    obtain ⟨he, hs⟩ := h.semTroca ht
    refine ⟨he, fun p hpj => ?_⟩
    by_cases h1 : p = j
    · subst h1; exact hle'
    · exact hs p (by omega)

/-- The inner loop run from index `j` for `k` more iterations keeps the
invariant and counts `k` comparisons. -/
theorem bubblePass_spec (arr0 : List Componente) (fim : Nat) (hfim : fim < arr0.length) :
    ∀ (k j : Nat) (arr : List Componente) (cnt : Nat) (t : Bool),
      PassInv arr0 fim arr j t → j + k = fim →
      ∃ arr1 t1, bubblePass k j (arr, cnt, t) = (arr1, cnt + k, t1) ∧
        PassInv arr0 fim arr1 fim t1
  | 0, j, arr, cnt, t, h, hk => by
    have : j = fim := by omega
    subst this
    exact ⟨arr, t, rfl, h⟩
  | k + 1, j, arr, cnt, t, h, hk => by
    by_cases hgt : strcmp (pos arr j).nome (pos arr (j + 1)).nome > 0
    · obtain ⟨arr1, t1, he, hi⟩ := bubblePass_spec arr0 fim hfim k (j + 1) (trocaAdj arr j)
        (cnt + 1) true (passInv_swap h (by omega) hfim hgt) (by omega)
      refine ⟨arr1, t1, ?_, hi⟩
      rw [bubblePass, if_pos hgt, he, show cnt + 1 + k = cnt + (k + 1) by omega]
    · obtain ⟨arr1, t1, he, hi⟩ := bubblePass_spec arr0 fim hfim k (j + 1) arr
        (cnt + 1) t (passInv_keep h (by omega) hgt) (by omega)
      refine ⟨arr1, t1, ?_, hi⟩
      rw [bubblePass, if_neg hgt, he, show cnt + 1 + k = cnt + (k + 1) by omega]

/-- A run of cells in which each name is at most the next one is in order. -/
theorem cadeia_nome (arr : List Componente) (m : Nat)
    (h : ∀ p, p < m → strcmp (pos arr p).nome (pos arr (p + 1)).nome ≤ 0) :
    ∀ d p, p + d ≤ m → strcmp (pos arr p).nome (pos arr (p + d)).nome ≤ 0
  | 0, p, _ => le_of_eq (strcmp_self _)
  | d + 1, p, hpd =>
    strcmp_trans _ _ _ (cadeia_nome arr m h d p (by omega)) (h (p + d) (by omega))

/-! ## bubbleSortNome: the outer loop -/

theorem bubbleOuter_spec (arr00 : List Componente) (n : Nat) :
    ∀ (k i : Nat) (arr : List Componente) (cnt : Nat),
      k + i = n - 1 → arr.length = n → arr.Perm arr00 → FinalNome n i arr →
      (bubbleOuter k n i (arr, cnt)).1.Perm arr00 ∧
      ∀ p q, p < q → q < n →
        strcmp (pos (bubbleOuter k n i (arr, cnt)).1 p).nome
          (pos (bubbleOuter k n i (arr, cnt)).1 q).nome ≤ 0
  | 0, i, arr, cnt, hk, hn, hperm, hfin => by
    refine ⟨hperm, fun p q hpq hq => ?_⟩
    exact hfin p q hpq (by omega) hq
  | k + 1, i, arr, cnt, hk, hn, hperm, hfin => by
    have hfim : n - 1 - i < arr.length := by omega
    obtain ⟨arr1, t1, he, hi⟩ := bubblePass_spec arr (n - 1 - i) hfim (n - 1 - i) 0 arr cnt
      false (passInv_init arr (n - 1 - i)) (by omega)
    rw [bubbleOuter, he]
    by_cases ht : t1 = false
    · simp only [ht, if_true]
      obtain ⟨ha, hs⟩ := hi.semTroca ht
      subst ha
      refine ⟨hperm, fun p q hpq hq => ?_⟩
      by_cases hq2 : n - i ≤ q
      · exact hfin p q hpq hq2 hq
      · have := cadeia_nome arr1 (n - 1 - i) hs (q - p) p (by omega)
        rwa [show p + (q - p) = q by omega] at this
    · simp only [ht, if_false]
      have hlen1 : arr1.length = n := hi.perm.length_eq.trans hn
      refine bubbleOuter_spec arr00 n k (i + 1) arr1 _ (by omega) hlen1
        (hi.perm.trans hperm) ?_
      intro p q hpq hq1 hq
      by_cases hq2 : q = n - 1 - i
      · subst hq2; exact hi.maior p (by omega)
      · rw [hi.resto q (by omega)]
        by_cases hp2 : n - 1 - i < p
        · rw [hi.resto p hp2]; exact hfin p q hpq (by omega) hq
        · obtain ⟨p1, hp1, hep⟩ := hi.origem p (by omega)
          rw [hep]; exact hfin p1 q (by omega) (by omega) hq

/-- Index form to `List.Pairwise`. -/
theorem pairwise_of_pos (R : Componente → Componente → Prop) (arr : List Componente)
    (h : ∀ p q, p < q → q < arr.length → R (pos arr p) (pos arr q)) :
    arr.Pairwise R := by
  rw [List.pairwise_iff_getElem]
  intro i j hi hj hij
  have := h i j hij hj
  rwa [pos_eq_getElem arr i hi, pos_eq_getElem arr j hj] at this

theorem pos_of_pairwise (R : Componente → Componente → Prop) (arr : List Componente)
    (h : arr.Pairwise R) : ∀ p q, p < q → q < arr.length → R (pos arr p) (pos arr q) := by
  rw [List.pairwise_iff_getElem] at h
  intro p q hpq hq
  rw [pos_eq_getElem arr p (by omega), pos_eq_getElem arr q hq]
  exact h p q (by omega) hq hpq

theorem bubbleSortNome_perm_sorted (arr : List Componente) :
    (bubbleSortNome arr).1.Perm arr ∧
    (bubbleSortNome arr).1.Pairwise (fun a b => strcmp a.nome b.nome ≤ 0) := by
  obtain ⟨hp, hs⟩ := bubbleOuter_spec arr arr.length (arr.length - 1) 0 arr 0 (by omega) rfl
    (List.Perm.refl _) (fun p q _ h1 h2 => by omega)
  refine ⟨hp, pairwise_of_pos _ _ fun p q hpq hq => ?_⟩
  have hl : (bubbleSortNome arr).1.length = arr.length := hp.length_eq
  exact hs p q hpq (by rw [← hl]; exact hq)

/-! ## insertionSortTipo -/

/-- Shifting `arr[j]` one cell up and writing the key at `j` is the exchange
of cells `j` and `j + 1` of the array that has the key at `j + 1`. -/
theorem desloca_eq_troca (arr : List Componente) (j : Nat) (chave : Componente)
    (hj : j + 1 < arr.length) :
    (arr.set (j + 1) (pos arr j)).set j chave = trocaAdj (arr.set (j + 1) chave) j := by
  have e1 : pos (arr.set (j + 1) chave) j = pos arr j := by
    rw [pos_set, if_neg (by omega)]
  have e2 : pos (arr.set (j + 1) chave) (j + 1) = chave := by
    rw [pos_set, if_pos ⟨rfl, hj⟩]
  simp only [trocaAdj, e1, e2]
  rw [List.set_comm chave chave arr (show j + 1 ≠ j by omega), List.set_set,
    List.set_comm (pos arr j) chave arr (show j + 1 ≠ j by omega)]

theorem insertLoop_spec (arr0 : List Componente) (i : Nat) (chave : Componente) :
    ∀ (j1 : Nat) (arr : List Componente) (cnt : Nat),
      j1 ≤ i → i < arr.length → InsInv arr0 i chave (arr.set j1 chave) j1 →
      (insertLoop chave j1 (arr, cnt)).1.Perm arr0 ∧
      ∀ p q, p < q → q ≤ i →
        strcmp (pos (insertLoop chave j1 (arr, cnt)).1 p).tipo
          (pos (insertLoop chave j1 (arr, cnt)).1 q).tipo ≤ 0
  | 0, arr, cnt, _, hi, h => by
    simp only [insertLoop]
    refine ⟨h.perm, fun p q hpq hq => ?_⟩
    by_cases hp : p = 0
    · subst hp
      have hk : pos (arr.set 0 chave) 0 = chave := by
        rw [pos_set, if_pos ⟨rfl, by omega⟩]
      have := strcmp_le_of_gt (h.maiores q hpq hq)
      rwa [hk]
    · exact h.ordem p q hpq hq hp (by omega)
  | j + 1, arr, cnt, hj, hi, h => by
    have hk : pos (arr.set (j + 1) chave) (j + 1) = chave := by
      rw [pos_set, if_pos ⟨rfl, by omega⟩]
    have hne : ∀ p, p ≠ j + 1 → pos (arr.set (j + 1) chave) p = pos arr p := fun p hp => by
      rw [pos_set, if_neg (by omega)]
    by_cases hgt : strcmp (pos arr j).tipo chave.tipo > 0
    · rw [insertLoop, if_pos hgt]
      refine insertLoop_spec arr0 i chave j _ _ (by omega) (by simpa using hi) ?_
      rw [desloca_eq_troca arr j chave (by omega), trocaAdj_eq_troca]
      have hl : (arr.set (j + 1) chave).length = arr.length := by simp
      have hp : ∀ p, pos (troca (arr.set (j + 1) chave) j (j + 1)) p =
          if p = j + 1 then pos arr j else if p = j then chave
            else pos (arr.set (j + 1) chave) p := fun p => by
        rw [pos_troca _ j (j + 1) p (by omega) (by omega), hk, hne j (by omega)]
      refine ⟨(troca_perm _ j (j + 1) (by omega) (by omega)).trans h.perm, ?_, ?_⟩
      · intro p q hpq hq hpj hqj
        rw [hp p, hp q, if_neg hpj, if_neg hqj]
        by_cases hq1 : q = j + 1
        · rw [if_pos hq1, if_neg (by omega), ← hne j (by omega)]
          exact h.ordem p j (by omega) (by omega) (by omega) (by omega)
        · rw [if_neg hq1]
          by_cases hp1 : p = j + 1
          · rw [if_pos hp1, ← hne j (by omega)]
            exact h.ordem j q (by omega) hq (by omega) hq1
          · rw [if_neg hp1]
            exact h.ordem p q hpq hq hp1 hq1
      · intro q hjq hq
        rw [hp q]
        by_cases hq1 : q = j + 1
        · rw [if_pos hq1]; exact hgt
        · rw [if_neg hq1, if_neg (by omega)]
          exact h.maiores q (by omega) hq
    · rw [insertLoop, if_neg hgt]
      have hle := strcmp_le_of_not_gt hgt
      refine ⟨h.perm, fun p q hpq hq => ?_⟩
      show strcmp (pos (arr.set (j + 1) chave) p).tipo (pos (arr.set (j + 1) chave) q).tipo ≤ 0
      by_cases hq1 : q = j + 1
      · subst hq1
        rw [hk]
        by_cases hp1 : p = j
        · subst hp1; rw [hne p (by omega)]; exact hle
        · have h1 := h.ordem p j (by omega) (by omega) (by omega) (by omega)
          rw [hne j (by omega)] at h1
          exact strcmp_trans _ _ _ h1 hle
      · by_cases hp1 : p = j + 1
        · subst hp1
          rw [hk]
          exact strcmp_le_of_gt (h.maiores q hpq hq)
        · exact h.ordem p q hpq hq hp1 hq1

theorem set_pos_self : ∀ (arr : List Componente) (i : Nat), arr.set i (pos arr i) = arr
  | [], _ => rfl
  | _ :: _, 0 => rfl
  | a :: t, i + 1 => by
    have e : pos (a :: t) (i + 1) = pos t i := by simp [pos]
    rw [e, List.set_cons_succ, set_pos_self t i]

theorem length_insertLoop (chave : Componente) :
    ∀ (j1 : Nat) (arr : List Componente) (cnt : Nat),
      (insertLoop chave j1 (arr, cnt)).1.length = arr.length
  | 0, arr, cnt => by simp [insertLoop]
  | j + 1, arr, cnt => by
    rw [insertLoop]
    split_ifs
    · rw [length_insertLoop chave j]; simp
    · simp

theorem insertOuter_spec (arr00 : List Componente) (n : Nat) :
    ∀ (k i : Nat) (arr : List Componente) (cnt : Nat),
      k = n - i → 1 ≤ i → arr.length = n → arr.Perm arr00 →
      (∀ p q, p < q → q < i → strcmp (pos arr p).tipo (pos arr q).tipo ≤ 0) →
      (insertOuter k i (arr, cnt)).1.Perm arr00 ∧
      ∀ p q, p < q → q < n →
        strcmp (pos (insertOuter k i (arr, cnt)).1 p).tipo
          (pos (insertOuter k i (arr, cnt)).1 q).tipo ≤ 0
  | 0, i, arr, cnt, hk, _, _, hperm, hs => by
    exact ⟨hperm, fun p q hpq hq => hs p q hpq (by omega)⟩
  | k + 1, i, arr, cnt, hk, hi, hn, hperm, hs => by
    rw [insertOuter]
    have hinv : InsInv arr i (pos arr i) (arr.set i (pos arr i)) i := by
      rw [set_pos_self]
      exact ⟨List.Perm.refl _, fun p q hpq hq _ hqi => hs p q hpq (by omega),
        fun q h1 h2 => by omega⟩
    obtain ⟨h1, h2⟩ := insertLoop_spec arr i (pos arr i) i arr cnt (le_refl _) (by omega) hinv
    have hl := length_insertLoop (pos arr i) i arr cnt
    generalize insertLoop (pos arr i) i (arr, cnt) = r at h1 h2 hl
    obtain ⟨arr1, cnt1⟩ := r
    exact insertOuter_spec arr00 n k (i + 1) arr1 cnt1 (by omega) (by omega)
      (hl.trans hn) (h1.trans hperm) (fun p q hpq hq => h2 p q hpq (by omega))

theorem insertionSortTipo_perm_sorted (arr : List Componente) :
    (insertionSortTipo arr).1.Perm arr ∧
    (insertionSortTipo arr).1.Pairwise (fun a b => strcmp a.tipo b.tipo ≤ 0) := by
  obtain ⟨hp, hs⟩ := insertOuter_spec arr arr.length (arr.length - 1) 1 arr 0 (by omega)
    (le_refl _) rfl (List.Perm.refl _) (fun p q _ h2 => by omega)
  refine ⟨hp, pairwise_of_pos _ _ fun p q hpq hq => ?_⟩
  have hl : (insertionSortTipo arr).1.length = arr.length := hp.length_eq
  exact hs p q hpq (by rw [← hl]; exact hq)

/-! ## selectionSortPrioridade -/

/-- The scan counts one comparison per iteration, whatever the records. -/
theorem selMin_count (arr : List Componente) :
    ∀ (k j idxMin cnt : Nat), (selMin arr k j (idxMin, cnt)).2 = cnt + k
  | 0, _, _, _ => rfl
  | k + 1, j, idxMin, cnt => by
    rw [selMin]
    split_ifs
    · rw [selMin_count arr k]; omega
    · rw [selMin_count arr k]; omega

/-- The scan leaves in `idxMin` an index of `i .. j+k-1` whose priority is
the least of that range. -/
theorem selMin_spec (arr : List Componente) (i : Nat) :
    ∀ (k j idxMin cnt : Nat), i ≤ idxMin → idxMin < j →
      (∀ p, i ≤ p → p < j → (pos arr idxMin).prioridade ≤ (pos arr p).prioridade) →
      i ≤ (selMin arr k j (idxMin, cnt)).1 ∧ (selMin arr k j (idxMin, cnt)).1 < j + k ∧
      ∀ p, i ≤ p → p < j + k →
        (pos arr (selMin arr k j (idxMin, cnt)).1).prioridade ≤ (pos arr p).prioridade
  | 0, j, idxMin, cnt, h1, h2, h3 => ⟨h1, h2, h3⟩
  | k + 1, j, idxMin, cnt, h1, h2, h3 => by
    rw [selMin]
    by_cases hlt : (pos arr j).prioridade < (pos arr idxMin).prioridade
    · rw [if_pos hlt]
      have := selMin_spec arr i k (j + 1) j (cnt + 1) (by omega) (by omega) (fun p hp1 hp2 => by
        by_cases hpj : p = j
        · subst hpj; exact le_refl _
        · have := h3 p hp1 (by omega); omega)
      rwa [show j + 1 + k = j + (k + 1) by omega] at this
    · rw [if_neg hlt]
      have := selMin_spec arr i k (j + 1) idxMin (cnt + 1) h1 (by omega) (fun p hp1 hp2 => by
        by_cases hpj : p = j
        · subst hpj; omega
        · exact h3 p hp1 (by omega))
      rwa [show j + 1 + k = j + (k + 1) by omega] at this

theorem selOuter_spec (arr00 : List Componente) (n : Nat) :
    ∀ (k i : Nat) (arr : List Componente) (cnt : Nat),
      k + i = n - 1 → arr.length = n → arr.Perm arr00 →
      (∀ p q, p < i → p < q → q < n → (pos arr p).prioridade ≤ (pos arr q).prioridade) →
      (selOuter k n i (arr, cnt)).1.Perm arr00 ∧
      ∀ p q, p < q → q < n →
        (pos (selOuter k n i (arr, cnt)).1 p).prioridade ≤
          (pos (selOuter k n i (arr, cnt)).1 q).prioridade
  | 0, i, arr, cnt, hk, hn, hperm, hs => by
    exact ⟨hperm, fun p q hpq hq => hs p q (by omega) hpq hq⟩
  | k + 1, i, arr, cnt, hk, hn, hperm, hs => by
    obtain ⟨hm1, hm2, hm3⟩ := selMin_spec arr i (n - (i + 1)) (i + 1) i cnt (le_refl _)
      (by omega) (fun p hp1 hp2 => by
        have : p = i := by omega
        subst this; exact le_refl _)
    rw [selOuter]
    generalize selMin arr (n - (i + 1)) (i + 1) (i, cnt) = r at hm1 hm2 hm3
    obtain ⟨m, cnt1⟩ := r
    simp only at hm1 hm2 hm3 ⊢
    have hmn : m < n := by omega
    by_cases hmi : m = i
    · rw [if_neg (by simpa using hmi)]
      subst hmi
      refine selOuter_spec arr00 n k (m + 1) arr cnt1 (by omega) hn hperm ?_
      intro p q hp hpq hq
      by_cases hpm : p = m
      · subst hpm; exact hm3 q (by omega) (by omega)
      · exact hs p q (by omega) hpq hq
    · rw [if_pos hmi]
      have hp : ∀ x, pos (troca arr i m) x =
          if x = m then pos arr i else if x = i then pos arr m else pos arr x :=
        fun x => pos_troca arr i m x (by omega) (by omega)
      refine selOuter_spec arr00 n k (i + 1) (troca arr i m) cnt1 (by omega)
        ((length_troca arr i m).trans hn)
        ((troca_perm arr i m (by omega) (by omega)).trans hperm) ?_
      intro p q hpi hpq hq
      rw [hp p, hp q]
      by_cases hpi2 : p = i
      · rw [if_neg (by omega), if_pos hpi2]
        by_cases hqm : q = m
        · rw [if_pos hqm]; exact hm3 i (le_refl _) (by omega)
        · rw [if_neg hqm, if_neg (by omega)]; exact hm3 q (by omega) (by omega)
      · rw [if_neg (by omega), if_neg hpi2]
        by_cases hqm : q = m
        · rw [if_pos hqm]; exact hs p i (by omega) (by omega) (by omega)
        · rw [if_neg hqm]
          by_cases hqi : q = i
          · rw [if_pos hqi]; exact hs p m (by omega) (by omega) hmn
          · rw [if_neg hqi]; exact hs p q (by omega) hpq hq

theorem selectionSortPrioridade_perm_sorted (arr : List Componente) :
    (selectionSortPrioridade arr).1.Perm arr ∧
    (selectionSortPrioridade arr).1.Pairwise (fun a b => a.prioridade ≤ b.prioridade) := by
  obtain ⟨hp, hs⟩ := selOuter_spec arr arr.length (arr.length - 1) 0 arr 0 (by omega) rfl
    (List.Perm.refl _) (fun p q h1 _ _ => by omega)
  refine ⟨hp, pairwise_of_pos _ _ fun p q hpq hq => ?_⟩
  have hl : (selectionSortPrioridade arr).1.length = arr.length := hp.length_eq
  exact hs p q hpq (by rw [← hl]; exact hq)

/-- With `k` iterations of the outer loop left, the scans still to come count
`k + (k-1) + ... + 1` comparisons. -/
theorem selOuter_count (n : Nat) :
    ∀ (k i : Nat) (arr : List Componente) (cnt : Nat), k + i = n - 1 →
      (selOuter k n i (arr, cnt)).2 = cnt + k * (k + 1) / 2
  | 0, _, _, _, _ => by simp [selOuter]
  | k + 1, i, arr, cnt, hk => by
    have hc := selMin_count arr (n - (i + 1)) (i + 1) i cnt
    rw [selOuter]
    generalize selMin arr (n - (i + 1)) (i + 1) (i, cnt) = r at hc
    obtain ⟨m, cnt1⟩ := r
    simp only at hc ⊢
    have hsum : cnt1 + k * (k + 1) / 2 = cnt + (k + 1) * (k + 1 + 1) / 2 := by
      have e : (k + 1) * (k + 1 + 1) = k * (k + 1) + 2 * (k + 1) := by ring
      rw [e, Nat.add_mul_div_left _ _ (by norm_num : 0 < 2), hc]
      omega
    split_ifs
    · rw [selOuter_count n k (i + 1) _ cnt1 (by omega)]; exact hsum
    · rw [selOuter_count n k (i + 1) _ cnt1 (by omega)]; exact hsum

/-! ## bubbleSortNome on an input already in order -/

/-- When no pair from `j` on is out of order, the pass changes neither the
array nor `trocou`, and counts one comparison per pair. -/
theorem bubblePass_sem_troca :
    ∀ (k j : Nat) (arr : List Componente) (cnt : Nat) (t : Bool),
      (∀ p, j ≤ p → p < j + k → strcmp (pos arr p).nome (pos arr (p + 1)).nome ≤ 0) →
      bubblePass k j (arr, cnt, t) = (arr, cnt + k, t)
  | 0, _, _, _, _, _ => rfl
  | k + 1, j, arr, cnt, t, h => by
    have hj := h j (le_refl _) (by omega)
    rw [bubblePass, if_neg (by omega),
      bubblePass_sem_troca k (j + 1) arr (cnt + 1) t (fun p h1 h2 => h p (by omega) (by omega)),
      show cnt + 1 + k = cnt + (k + 1) by omega]

/-! ## buscaBinariaPorNome -/

/-- The loop always returns within its bound once the bound covers the width
of the range; it counts one comparison per index read, and after `d` reads
`2 ^ (d - 1)` does not exceed the width. -/
theorem buscaLoop_conta (arr : List Componente) (chave : List Nat) :
    ∀ (fuel w : Nat) (low high : Int) (cnt : Nat) (sondas : List Int),
      w ≤ fuel → high - low + 1 ≤ (w : Int) →
      ∃ r d, buscaLoop arr chave fuel low high cnt sondas = some r ∧
        r.comparacoes = cnt + d ∧ r.sondas.length = sondas.length + d ∧
        (d = 0 ∨ 2 ^ (d - 1) ≤ w)
  | 0, w, low, high, cnt, sondas, hw, hr => by
    refine ⟨⟨-1, cnt, sondas⟩, 0, ?_, rfl, rfl, Or.inl rfl⟩
    rw [buscaLoop, if_neg (by omega)]
  | fuel + 1, w, low, high, cnt, sondas, hw, hr => by
    by_cases hlh : low ≤ high
    · rw [buscaLoop, if_pos hlh]
      simp only
      have passo : ∀ d1, (d1 = 0 ∨ 2 ^ (d1 - 1) ≤ w / 2) → 2 ^ (d1 + 1 - 1) ≤ w := by
        intro d1 h
        rcases h with h | h
        · subst h; simp; omega
        · by_cases hd : d1 = 0
          · subst hd; simp; omega
          · have e : d1 + 1 - 1 = (d1 - 1) + 1 := by omega
            rw [e, pow_succ]; omega
      by_cases hc0 : strcmp (pos arr (low + (high - low) / 2).toNat).nome chave = 0
      · rw [if_pos hc0]
        exact ⟨_, 1, rfl, rfl, by simp, Or.inr (by simp; omega)⟩
      · rw [if_neg hc0]
        by_cases hc1 : strcmp (pos arr (low + (high - low) / 2).toNat).nome chave < 0
        · rw [if_pos hc1]
          obtain ⟨r, d, he, h1, h2, h3⟩ := buscaLoop_conta arr chave fuel (w / 2)
            (low + (high - low) / 2 + 1) high (cnt + 1)
            (sondas ++ [low + (high - low) / 2]) (by omega) (by omega)
          exact ⟨r, d + 1, he, by omega, by rw [h2]; simp; omega, Or.inr (passo d h3)⟩
        · rw [if_neg hc1]
          obtain ⟨r, d, he, h1, h2, h3⟩ := buscaLoop_conta arr chave fuel (w / 2)
            low (low + (high - low) / 2 - 1) (cnt + 1)
            (sondas ++ [low + (high - low) / 2]) (by omega) (by omega)
          exact ⟨r, d + 1, he, by omega, by rw [h2]; simp; omega, Or.inr (passo d h3)⟩
    · refine ⟨⟨-1, cnt, sondas⟩, 0, ?_, rfl, rfl, Or.inl rfl⟩
      rw [buscaLoop, if_neg hlh]

/-- What the loop returns is `-1` or an index of the range whose name
compares equal to the key. -/
theorem buscaLoop_achado (arr : List Componente) (chave : List Nat) :
    ∀ (fuel : Nat) (low high : Int) (cnt : Nat) (sondas : List Int) (r : ResultadoBusca),
      buscaLoop arr chave fuel low high cnt sondas = some r →
      r.idx = -1 ∨
        (low ≤ r.idx ∧ r.idx ≤ high ∧ strcmp (pos arr r.idx.toNat).nome chave = 0)
  | 0, low, high, cnt, sondas, r, h => by
    rw [buscaLoop] at h
    split_ifs at h
    simp only [Option.some.injEq] at h
    subst h; exact Or.inl rfl
  | fuel + 1, low, high, cnt, sondas, r, h => by
    rw [buscaLoop] at h
    simp only at h
    split_ifs at h with hlh hc0 hc1
    · simp only [Option.some.injEq] at h
      subst h
      exact Or.inr ⟨by simp only; omega, by simp only; omega, hc0⟩
    · rcases buscaLoop_achado arr chave fuel _ _ _ _ r h with h1 | ⟨h1, h2, h3⟩
      · exact Or.inl h1
      · exact Or.inr ⟨by omega, h2, h3⟩
    · rcases buscaLoop_achado arr chave fuel _ _ _ _ r h with h1 | ⟨h1, h2, h3⟩
      · exact Or.inl h1
      · exact Or.inr ⟨h1, by omega, h3⟩
    · simp only [Option.some.injEq] at h
      subst h; exact Or.inl rfl

/-- On an array in order by name, a `-1` from the loop means that no cell of
the range holds a name equal to the key. -/
theorem buscaLoop_ausente (arr : List Componente) (chave : List Nat)
    (hs : ∀ p q, p < q → q < arr.length → strcmp (pos arr p).nome (pos arr q).nome ≤ 0) :
    ∀ (fuel : Nat) (low high : Int) (cnt : Nat) (sondas : List Int) (r : ResultadoBusca),
      buscaLoop arr chave fuel low high cnt sondas = some r →
      0 ≤ low → high < arr.length → r.idx = -1 →
      ∀ p : Nat, low ≤ (p : Int) → (p : Int) ≤ high → strcmp (pos arr p).nome chave ≠ 0
  | 0, low, high, cnt, sondas, r, h, _, _, _ => by
    rw [buscaLoop] at h
    split_ifs at h with hlh
    intro p h1 h2; omega
  | fuel + 1, low, high, cnt, sondas, r, h, hlow, hhigh, hr => by
    have hle : ∀ p q, p ≤ q → q < arr.length →
        strcmp (pos arr p).nome (pos arr q).nome ≤ 0 := fun p q hpq hq => by
      by_cases e : p = q
      · subst e; exact le_of_eq (strcmp_self _)
      · exact hs p q (by omega) hq
    rw [buscaLoop] at h
    simp only at h
    split_ifs at h with hlh hc0 hc1
    · simp only [Option.some.injEq] at h
      subst h
      simp only at hr
      omega
    · have ih := buscaLoop_ausente arr chave hs fuel _ _ _ _ r h (by omega) hhigh hr
      intro p h1 h2 h0
      by_cases hp : low + (high - low) / 2 + 1 ≤ (p : Int)
      · exact ih p hp h2 h0
      · have h3 := hle p (low + (high - low) / 2).toNat (by omega) (by omega)
        have h4 : strcmp chave (pos arr p).nome ≤ 0 := by
          rw [strcmp_neg (pos arr p).nome chave, h0]; simp
        have h5 := strcmp_trans _ _ _ h4 h3
        rw [strcmp_neg (pos arr (low + (high - low) / 2).toNat).nome chave] at h5
        omega
    · have ih := buscaLoop_ausente arr chave hs fuel _ _ _ _ r h hlow (by omega) hr
      intro p h1 h2 h0
      by_cases hp : (p : Int) ≤ low + (high - low) / 2 - 1
      · exact ih p h1 hp h0
      · have h3 := hle (low + (high - low) / 2).toNat p (by omega) (by omega)
        have h4 : strcmp (pos arr p).nome chave ≤ 0 := le_of_eq h0
        have h5 := strcmp_trans _ _ _ h3 h4
        omega
    · intro p h1 h2; omega

/-- The call returns: the bound `n` given to the loop is never reached. -/
theorem buscaBinariaPorNome_conta (arr : List Componente) (chave : List Nat) :
    ∃ r, buscaBinariaPorNome arr chave = some r ∧
      r.comparacoes = r.sondas.length ∧
      (r.comparacoes = 0 ∨ 2 ^ (r.comparacoes - 1) ≤ arr.length) := by
  obtain ⟨r, d, he, h1, h2, h3⟩ := buscaLoop_conta arr chave arr.length arr.length 0
    ((arr.length : Int) - 1) 0 [] (le_refl _) (by omega)
  refine ⟨r, he, ?_, ?_⟩
  · rw [h1, h2]; simp
  · rw [h1]; simpa using h3

/-! ## The menu session -/

theorem passo_componentes (s : Sessao) (e : Entrada) :
    (passo s e).1.componentes = s.componentes := by
  unfold passo casoOrdenar
  split_ifs <;> (try rfl) <;> (split <;> rfl)

theorem executar_componentes : ∀ (cmds : List Entrada) (s : Sessao),
    (executar s cmds).1.componentes = s.componentes
  | [], _ => rfl
  | e :: es, s => by
    have h1 := passo_componentes s e
    rw [executar]
    generalize passo s e = r at h1
    obtain ⟨s1, out1⟩ := r
    simp only at h1 ⊢
    split_ifs
    · exact h1
    · have h2 := executar_componentes es s1
      generalize executar s1 es = r2 at h2
      obtain ⟨s2, out2⟩ := r2
      simp only at h2 ⊢
      rw [h2, h1]

theorem passo_arrTrabalho (s : Sessao) (e : Entrada) :
    (passo s e).1.arrTrabalho =
      if ehOrdenacao e.opcao then
        (if e.mallocOk then some (algoritmoDe e.opcao s.componentes).1 else none)
      else s.arrTrabalho := by
  unfold passo
  by_cases h1 : e.opcao = 1
  · simp [h1, ehOrdenacao]
  by_cases h2 : e.opcao = 2
  · cases hm : e.mallocOk <;>
      simp [h2, ehOrdenacao, algoritmoDe, casoOrdenar, copiarArray, medirTempo, hm]
  by_cases h3 : e.opcao = 3
  · cases hm : e.mallocOk <;>
      simp [h3, ehOrdenacao, algoritmoDe, casoOrdenar, copiarArray, medirTempo, hm]
  by_cases h4 : e.opcao = 4
  · cases hm : e.mallocOk <;>
      simp [h4, ehOrdenacao, algoritmoDe, casoOrdenar, copiarArray, medirTempo, hm]
  have hno : ehOrdenacao e.opcao = false := by simp [ehOrdenacao, h2, h3, h4]
  rw [if_neg h1, if_neg h2, if_neg h3, if_neg h4, hno]
  simp only [Bool.false_eq_true, if_false]
  by_cases h5 : e.opcao = 5
  · rw [if_pos h5]
    cases hw : s.arrTrabalho <;> simp [hw]
  · rw [if_neg h5]
    split_ifs <;> rfl

/-- The working copy after a run of the menu loop is the one the most recent
sort request left (or the one held at the start when there was none). -/
theorem executar_arrTrabalho : ∀ (cmds : List Entrada) (s : Sessao),
    (executar s cmds).1.arrTrabalho =
      match ultimaOrdenacao cmds with
      | none => s.arrTrabalho
      | some c => if c.mallocOk then some (algoritmoDe c.opcao s.componentes).1 else none
  | [], _ => rfl
  | e :: es, s => by
    have h1 := passo_componentes s e
    have h2 := passo_arrTrabalho s e
    rw [executar, ultimaOrdenacao]
    generalize passo s e = r at h1 h2
    obtain ⟨s1, out1⟩ := r
    simp only at h1 h2 ⊢
    by_cases h6 : e.opcao = 6
    · have hno : ehOrdenacao e.opcao = false := by simp [ehOrdenacao, h6]
      rw [if_pos h6, if_pos h6, h2, hno]
      rfl
    · rw [if_neg h6, if_neg h6]
      have ih := executar_arrTrabalho es s1
      generalize executar s1 es = r2 at ih
      obtain ⟨s2, out2⟩ := r2
      simp only at ih ⊢
      rw [ih]
      cases hu : ultimaOrdenacao es with
      | some c => simp only [h1]
      | none =>
        simp only [h2]
        cases ho : ehOrdenacao e.opcao <;> simp

theorem ultimaOrdenacao_none_of_sem_ordenacao : ∀ (cmds : List Entrada),
    (∀ c ∈ cmds, ehOrdenacao c.opcao = false) → ultimaOrdenacao cmds = none
  | [], _ => rfl
  | e :: es, h => by
    have h1 := ultimaOrdenacao_none_of_sem_ordenacao es
      (fun c hc => h c (List.mem_cons_of_mem _ hc))
    have h2 := h e (List.mem_cons_self _ _)
    rw [ultimaOrdenacao, h1, h2]
    by_cases h6 : e.opcao = 6
    · rw [if_pos h6]
    · rw [if_neg h6]; rfl

/-- A sort request whose clone is made runs its algorithm on the records as
entered and keeps the outcome. -/
theorem passo_ordenar (s : Sessao) (e : Entrada) (ho : ehOrdenacao e.opcao = true)
    (hm : e.mallocOk = true) :
    passo s e =
      ({ s with arrTrabalho := some (algoritmoDe e.opcao s.componentes).1,
                comparacoes := (algoritmoDe e.opcao s.componentes).2 },
        [Saida.resultado e.opcao (algoritmoDe e.opcao s.componentes).2,
          Saida.lista (algoritmoDe e.opcao s.componentes).1]) := by
  unfold passo
  by_cases h2 : e.opcao = 2
  · simp [h2, algoritmoDe, casoOrdenar, copiarArray, medirTempo, hm]
  by_cases h3 : e.opcao = 3
  · simp [h3, algoritmoDe, casoOrdenar, copiarArray, medirTempo, hm]
  by_cases h4 : e.opcao = 4
  · simp [h4, algoritmoDe, casoOrdenar, copiarArray, medirTempo, hm]
  · simp [ehOrdenacao, h2, h3, h4] at ho

/-- A sort request whose clone cannot be made leaves no working copy and
prints the allocation error. -/
theorem passo_ordenar_falha (s : Sessao) (e : Entrada) (ho : ehOrdenacao e.opcao = true)
    (hm : e.mallocOk = false) :
    passo s e = ({ s with arrTrabalho := none }, [Saida.erroAlocacao]) := by
  unfold passo
  by_cases h2 : e.opcao = 2
  · simp [h2, casoOrdenar, copiarArray, hm]
  by_cases h3 : e.opcao = 3
  · simp [h3, casoOrdenar, copiarArray, hm]
  by_cases h4 : e.opcao = 4
  · simp [h4, casoOrdenar, copiarArray, hm]
  · simp [ehOrdenacao, h2, h3, h4] at ho

/-- A search request made with no working copy. -/
theorem passo_busca_sem_copia (s : Sessao) (e : Entrada) (he : e.opcao = 5)
    (hn : s.arrTrabalho = none) : passo s e = (s, [Saida.avisoSemVetor]) := by
  unfold passo
  rw [he, hn]
  rfl

/-! ## buscaBinariaPorNome: the indices read -/

/-- Every index the loop reads lies inside the array, as long as the range it
starts from does. -/
theorem buscaLoop_limites (arr : List Componente) (chave : List Nat) :
    ∀ (fuel : Nat) (low high : Int) (cnt : Nat) (sondas : List Int) (r : ResultadoBusca),
      buscaLoop arr chave fuel low high cnt sondas = some r →
      0 ≤ low → high < arr.length →
      (∀ m ∈ sondas, 0 ≤ m ∧ m < arr.length) →
      ∀ m ∈ r.sondas, 0 ≤ m ∧ m < arr.length
  | 0, low, high, cnt, sondas, r, h, _, _, hs => by
    rw [buscaLoop] at h
    split_ifs at h
    simp only [Option.some.injEq] at h
    subst h; exact hs
  | fuel + 1, low, high, cnt, sondas, r, h, hlow, hhigh, hs => by
    have hs1 : ∀ m ∈ sondas ++ [low + (high - low) / 2], low ≤ high →
        0 ≤ m ∧ m < arr.length := by
      intro m hm hlh
      rcases List.mem_append.1 hm with hm | hm
      · exact hs m hm
      · have : m = low + (high - low) / 2 := by simpa using hm
        subst this
        constructor <;> omega
    rw [buscaLoop] at h
    simp only at h
    split_ifs at h with hlh hc0 hc1
    · simp only [Option.some.injEq] at h
      subst h
      exact fun m hm => hs1 m hm hlh
    · exact buscaLoop_limites arr chave fuel _ _ _ _ r h (by omega) hhigh
        (fun m hm => hs1 m hm hlh)
    · exact buscaLoop_limites arr chave fuel _ _ _ _ r h hlow (by omega)
        (fun m hm => hs1 m hm hlh)
    · simp only [Option.some.injEq] at h
      subst h; exact hs

/-- When the loop returns an index, that index is the last one it read and is
the first of the indices read whose name compares equal to the key. -/
theorem buscaLoop_primeira (arr : List Componente) (chave : List Nat) :
    ∀ (fuel : Nat) (low high : Int) (cnt : Nat) (sondas : List Int) (r : ResultadoBusca),
      buscaLoop arr chave fuel low high cnt sondas = some r →
      (∀ m ∈ sondas, strcmp (pos arr m.toNat).nome chave ≠ 0) →
      r.idx = -1 ∨
        ∃ antes, r.sondas = antes ++ [r.idx] ∧
          (∀ m ∈ antes, strcmp (pos arr m.toNat).nome chave ≠ 0) ∧
          strcmp (pos arr r.idx.toNat).nome chave = 0
  | 0, low, high, cnt, sondas, r, h, _ => by
    rw [buscaLoop] at h
    split_ifs at h
    simp only [Option.some.injEq] at h
    subst h; exact Or.inl rfl
  | fuel + 1, low, high, cnt, sondas, r, h, hs => by
    have hs1 : strcmp (pos arr (low + (high - low) / 2).toNat).nome chave ≠ 0 →
        ∀ m ∈ sondas ++ [low + (high - low) / 2],
          strcmp (pos arr m.toNat).nome chave ≠ 0 := by
      intro hne m hm
      rcases List.mem_append.1 hm with hm | hm
      · exact hs m hm
      · have : m = low + (high - low) / 2 := by simpa using hm
        subst this
        exact hne
    rw [buscaLoop] at h
    simp only at h
    split_ifs at h with hlh hc0 hc1
    · simp only [Option.some.injEq] at h
      subst h
      exact Or.inr ⟨sondas, rfl, hs, hc0⟩
    · exact buscaLoop_primeira arr chave fuel _ _ _ _ r h (hs1 hc0)
    · exact buscaLoop_primeira arr chave fuel _ _ _ _ r h (hs1 hc0)
    · simp only [Option.some.injEq] at h
      subst h; exact Or.inl rfl

/-! ## The sorts on an input already in order -/

theorem bubbleSortNome_de_ordenado (arr : List Componente)
    (hs : ∀ p q, p < q → q < arr.length → strcmp (pos arr p).nome (pos arr q).nome ≤ 0) :
    bubbleSortNome arr = (arr, arr.length - 1) := by
  unfold bubbleSortNome
  cases hk : arr.length - 1 with
  | zero => rfl
  | succ k =>
    have := bubblePass_sem_troca (arr.length - 1) 0 arr 0 false
      (fun p _ hp => hs p (p + 1) (by omega) (by omega))
    rw [bubbleOuter, Nat.sub_zero, this]
    simp [hk]

/-- A key that is not smaller than its left neighbour is put back where it
was after one comparison. -/
theorem insertLoop_no_lugar (arr : List Componente) (i cnt : Nat) (hi : 1 ≤ i)
    (h : strcmp (pos arr (i - 1)).tipo (pos arr i).tipo ≤ 0) :
    insertLoop (pos arr i) i (arr, cnt) = (arr, cnt + 1) := by
  obtain ⟨j, rfl⟩ : ∃ j, i = j + 1 := ⟨i - 1, by omega⟩
  rw [insertLoop, if_neg (by simpa using h), set_pos_self]

theorem insertOuter_de_ordenado :
    ∀ (k i : Nat) (arr : List Componente) (cnt : Nat), 1 ≤ i →
      (∀ p, i ≤ p → p < i + k → strcmp (pos arr (p - 1)).tipo (pos arr p).tipo ≤ 0) →
      insertOuter k i (arr, cnt) = (arr, cnt + k)
  | 0, _, _, _, _, _ => rfl
  | k + 1, i, arr, cnt, hi, h => by
    rw [insertOuter, insertLoop_no_lugar arr i cnt hi (h i (le_refl _) (by omega)),
      insertOuter_de_ordenado k (i + 1) arr (cnt + 1) (by omega)
        (fun p h1 h2 => h p (by omega) (by omega)),
      show cnt + 1 + k = cnt + (k + 1) by omega]

theorem insertionSortTipo_de_ordenado (arr : List Componente)
    (hs : ∀ p q, p < q → q < arr.length → strcmp (pos arr p).tipo (pos arr q).tipo ≤ 0) :
    insertionSortTipo arr = (arr, arr.length - 1) := by
  unfold insertionSortTipo
  rw [insertOuter_de_ordenado (arr.length - 1) 1 arr 0 (le_refl _)
    (fun p h1 h2 => hs (p - 1) p (by omega) (by omega))]
  simp

/-- When no later cell holds a smaller priority than `arr[i]`, the scan keeps
`idxMin = i`. -/
theorem selMin_fica (arr : List Componente) (i : Nat) :
    ∀ (k j cnt : Nat),
      (∀ p, j ≤ p → p < j + k → (pos arr i).prioridade ≤ (pos arr p).prioridade) →
      selMin arr k j (i, cnt) = (i, cnt + k)
  | 0, _, _, _ => rfl
  | k + 1, j, cnt, h => by
    have hj := h j (le_refl _) (by omega)
    rw [selMin, if_neg (by omega),
      selMin_fica arr i k (j + 1) (cnt + 1) (fun p h1 h2 => h p (by omega) (by omega)),
      show cnt + 1 + k = cnt + (k + 1) by omega]

theorem selOuter_de_ordenado (arr : List Componente) (n : Nat)
    (hs : ∀ p q, p < q → q < n → (pos arr p).prioridade ≤ (pos arr q).prioridade) :
    ∀ (k i cnt : Nat), (selOuter k n i (arr, cnt)).1 = arr
  | 0, _, _ => rfl
  | k + 1, i, cnt => by
    rw [selOuter, selMin_fica arr i (n - (i + 1)) (i + 1) cnt
      (fun p h1 h2 => hs i p (by omega) (by omega))]
    simp only [ne_eq, not_true_eq_false, if_false]
    exact selOuter_de_ordenado arr n hs k (i + 1) _

theorem selectionSortPrioridade_de_ordenado (arr : List Componente)
    (hs : ∀ p q, p < q → q < arr.length →
      (pos arr p).prioridade ≤ (pos arr q).prioridade) :
    (selectionSortPrioridade arr).1 = arr :=
  selOuter_de_ordenado arr arr.length hs _ _ _

/-! ## Stability: exchanges of neighbours with different keys -/

/-- Exchanging two neighbours that do not both pass a test leaves the list of
the records passing the test as it was. -/
theorem filter_trocaAdj (f : Componente → Bool) :
    ∀ (l : List Componente) (j : Nat), j + 1 < l.length →
      (f (pos l j) = false ∨ f (pos l (j + 1)) = false) →
      (trocaAdj l j).filter f = l.filter f
  | [], _, h, _ => by simp at h
  | [_], _, h, _ => by simp at h
  | a :: b :: t, 0, _, hf => by
    have e : trocaAdj (a :: b :: t) 0 = b :: a :: t := by simp [trocaAdj, pos]
    have ha : pos (a :: b :: t) 0 = a := rfl
    have hb : pos (a :: b :: t) (0 + 1) = b := rfl
    rw [ha, hb] at hf
    rw [e]
    rcases hf with hf | hf
    · cases hfb : f b <;> simp [List.filter, hf, hfb]
    · cases hfa : f a <;> simp [List.filter, hf, hfa]
  | a :: b :: t, j + 1, h, hf => by
    have e : trocaAdj (a :: b :: t) (j + 1) = a :: trocaAdj (b :: t) j := by
      simp [trocaAdj, pos]
    have h1 : pos (a :: b :: t) (j + 1) = pos (b :: t) j := by simp [pos]
    have h2 : pos (a :: b :: t) (j + 1 + 1) = pos (b :: t) (j + 1) := by simp [pos]
    rw [h1, h2] at hf
    have ih := filter_trocaAdj f (b :: t) j (by simpa using h) hf
    rw [e, List.filter_cons, List.filter_cons, ih]

theorem length_trocaAdj (arr : List Componente) (j : Nat) :
    (trocaAdj arr j).length = arr.length := by
  simp [trocaAdj]

/-- Two names of which one is greater under `strcmp` are not both the C
string `k`. -/
theorem chaves_distintas {a b : List Nat} (k : List Nat) (h : strcmp a b > 0) :
    decide (cstr a = k) = false ∨ decide (cstr b = k) = false := by
  by_cases ha : cstr a = k
  · right
    have hne : cstr a ≠ cstr b := fun e => by
      have := (strcmp_eq_zero_iff a b).2 e
      omega
    simp only [decide_eq_false_iff_not]
    intro hb
    exact hne (ha.trans hb.symm)
  · left; simpa using ha

theorem bubblePass_filter (k0 : List Nat) :
    ∀ (k j : Nat) (arr : List Componente) (cnt : Nat) (t : Bool),
      j + k ≤ arr.length - 1 →
      (bubblePass k j (arr, cnt, t)).1.filter (fun c => decide (cstr c.nome = k0)) =
        arr.filter (fun c => decide (cstr c.nome = k0))
  | 0, _, _, _, _, _ => rfl
  | k + 1, j, arr, cnt, t, h => by
    rw [bubblePass]
    split_ifs with hgt
    · rw [bubblePass_filter k0 k (j + 1) (trocaAdj arr j) (cnt + 1) true
        (by rw [length_trocaAdj]; omega)]
      exact filter_trocaAdj _ arr j (by omega) (chaves_distintas k0 hgt)
    · exact bubblePass_filter k0 k (j + 1) arr (cnt + 1) t (by omega)

theorem length_bubblePass :
    ∀ (k j : Nat) (arr : List Componente) (cnt : Nat) (t : Bool),
      (bubblePass k j (arr, cnt, t)).1.length = arr.length
  | 0, _, _, _, _ => rfl
  | k + 1, j, arr, cnt, t => by
    rw [bubblePass]
    split_ifs
    · rw [length_bubblePass k (j + 1), length_trocaAdj]
    · exact length_bubblePass k (j + 1) arr (cnt + 1) t

theorem bubbleOuter_filter (k0 : List Nat) (n : Nat) :
    ∀ (k i : Nat) (arr : List Componente) (cnt : Nat), arr.length = n →
      (bubbleOuter k n i (arr, cnt)).1.filter (fun c => decide (cstr c.nome = k0)) =
        arr.filter (fun c => decide (cstr c.nome = k0))
  | 0, _, _, _, _ => rfl
  | k + 1, i, arr, cnt, hn => by
    have h1 := bubblePass_filter k0 (n - 1 - i) 0 arr cnt false (by omega)
    have h2 := length_bubblePass (n - 1 - i) 0 arr cnt false
    rw [bubbleOuter]
    generalize bubblePass (n - 1 - i) 0 (arr, cnt, false) = r at h1 h2
    obtain ⟨arr1, cnt1, t1⟩ := r
    simp only at h1 h2 ⊢
    split_ifs
    · exact h1
    · rw [bubbleOuter_filter k0 n k (i + 1) arr1 cnt1 (h2.trans hn)]
      exact h1

theorem insertLoop_filter (k0 : List Nat) (chave : Componente) :
    ∀ (j1 : Nat) (arr : List Componente) (cnt : Nat), j1 < arr.length →
      (insertLoop chave j1 (arr, cnt)).1.filter (fun c => decide (cstr c.tipo = k0)) =
        (arr.set j1 chave).filter (fun c => decide (cstr c.tipo = k0))
  | 0, _, _, _ => rfl
  | j + 1, arr, cnt, h => by
    rw [insertLoop]
    split_ifs with hgt
    · rw [insertLoop_filter k0 chave j _ (cnt + 1) (by simp; omega),
        desloca_eq_troca arr j chave h]
      refine filter_trocaAdj _ _ j (by simpa using h) ?_
      have e1 : pos (arr.set (j + 1) chave) j = pos arr j := by
        rw [pos_set, if_neg (by omega)]
      have e2 : pos (arr.set (j + 1) chave) (j + 1) = chave := by
        rw [pos_set, if_pos ⟨rfl, h⟩]
      rw [e1, e2]
      exact chaves_distintas k0 hgt
    · rfl

theorem insertOuter_filter (k0 : List Nat) (n : Nat) :
    ∀ (k i : Nat) (arr : List Componente) (cnt : Nat), arr.length = n → i + k ≤ n →
      (insertOuter k i (arr, cnt)).1.filter (fun c => decide (cstr c.tipo = k0)) =
        arr.filter (fun c => decide (cstr c.tipo = k0))
  | 0, _, _, _, _, _ => rfl
  | k + 1, i, arr, cnt, hn, hk => by
    have h1 := insertLoop_filter k0 (pos arr i) i arr cnt (by omega)
    have h2 := length_insertLoop (pos arr i) i arr cnt
    rw [set_pos_self] at h1
    rw [insertOuter]
    generalize insertLoop (pos arr i) i (arr, cnt) = r at h1 h2
    obtain ⟨arr1, cnt1⟩ := r
    rw [insertOuter_filter k0 n k (i + 1) arr1 cnt1 (h2.trans hn) (by omega)]
    exact h1

/-! ## insertionSortTipo: the comparison count -/

theorem range_filter_succ (f : Nat → Bool) (j : Nat) :
    ((List.range (j + 1)).filter f).length =
      ((List.range j).filter f).length + (if f j = true then 1 else 0) := by
  rw [List.range_succ, List.filter_append, List.length_append]
  cases hf : f j <;> simp [List.filter, hf]

theorem range_filter_congr (f g : Nat → Bool) (j : Nat) (h : ∀ k, k < j → f k = g k) :
    (List.range j).filter f = (List.range j).filter g :=
  List.filter_congr (fun k hk => h k (List.mem_range.1 hk))

theorem range_filter_nenhum (f : Nat → Bool) (j : Nat) (h : ∀ k, k < j → f k = false) :
    ((List.range j).filter f).length = 0 := by
  rw [List.length_eq_zero, List.filter_eq_nil_iff]
  intro k hk
  simp [h k (List.mem_range.1 hk)]

theorem range_filter_todos (f : Nat → Bool) (j : Nat) (h : ∀ k, k < j → f k = true) :
    ((List.range j).filter f).length = j := by
  have := (List.filter_length_eq_length (p := f) (l := List.range j)).2
    (fun k hk => h k (List.mem_range.1 hk))
  simpa using this

theorem range_filter_le (f : Nat → Bool) (j : Nat) :
    ((List.range j).filter f).length ≤ j := by
  have := List.length_filter_le f (List.range j)
  simpa using this

/-- Counting over the indices below `i` is counting over the first `i`
records. -/
theorem range_filter_eq_countP (f : Componente → Bool) (arr : List Componente) :
    ∀ i, i ≤ arr.length →
      ((List.range i).filter (fun k => f (pos arr k))).length = (arr.take i).countP f
  | 0, _ => by simp
  | i + 1, h => by
    have hi : arr[i]? = some (pos arr i) := by
      rw [pos_eq_getElem arr i (by omega)]
      exact List.getElem?_eq_getElem (by omega)
    rw [range_filter_succ, range_filter_eq_countP f arr i (by omega), List.take_succ,
      List.countP_append, hi]
    cases hf : f (pos arr i) <;> simp [List.countP_cons, hf]

/-- The comparisons of one run of the `while` loop over a prefix in order:
one for each record of the prefix greater than the key, and one more when the
prefix holds a record that is not. -/
theorem insertLoop_conta (chave : Componente) :
    ∀ (j1 : Nat) (arr : List Componente) (cnt : Nat),
      (∀ p q, p < q → q < j1 → strcmp (pos arr p).tipo (pos arr q).tipo ≤ 0) →
      (insertLoop chave j1 (arr, cnt)).2 =
        cnt + ((List.range j1).filter
            (fun k => decide (strcmp (pos arr k).tipo chave.tipo > 0))).length +
          (if ((List.range j1).filter
            (fun k => decide (strcmp (pos arr k).tipo chave.tipo > 0))).length < j1
            then 1 else 0)
  | 0, arr, cnt, _ => by simp [insertLoop]
  | j + 1, arr, cnt, hs => by
    rw [insertLoop, range_filter_succ]
    by_cases hgt : strcmp (pos arr j).tipo chave.tipo > 0
    · rw [if_pos hgt]
      have hcong : (List.range j).filter
            (fun k => decide (strcmp (pos (arr.set (j + 1) (pos arr j)) k).tipo chave.tipo > 0)) =
          (List.range j).filter (fun k => decide (strcmp (pos arr k).tipo chave.tipo > 0)) :=
        range_filter_congr _ _ j (fun k hk => by rw [pos_set, if_neg (by omega)])
      rw [insertLoop_conta chave j _ (cnt + 1) (fun p q hpq hq => by
        rw [pos_set, if_neg (by omega), pos_set, if_neg (by omega)]
        exact hs p q hpq (by omega)), hcong]
      simp only [hgt, decide_True, if_true]
      split_ifs <;> omega
    · rw [if_neg hgt]
      have hz : ((List.range j).filter
          (fun k => decide (strcmp (pos arr k).tipo chave.tipo > 0))).length = 0 := by
        apply range_filter_nenhum
        intro k hk
        have h1 := hs k j hk (by omega)
        have h2 := strcmp_trans _ _ _ h1 (strcmp_le_of_not_gt hgt)
        simp only [decide_eq_false_iff_not]
        omega
      rw [hz]
      simp [hgt]

/-- The `while` loop started at `j1` leaves the cells beyond `j1` alone. -/
theorem insertLoop_resto (chave : Componente) :
    ∀ (j1 : Nat) (arr : List Componente) (cnt : Nat) (p : Nat), j1 < p →
      pos (insertLoop chave j1 (arr, cnt)).1 p = pos arr p
  | 0, arr, cnt, p, hp => by
    simp only [insertLoop]
    rw [pos_set, if_neg (by omega)]
  | j + 1, arr, cnt, p, hp => by
    rw [insertLoop]
    split_ifs
    · rw [insertLoop_resto chave j _ _ p (by omega), pos_set, if_neg (by omega)]
    · simp only
      rw [pos_set, if_neg (by omega)]

/-- Two rearrangements of each other that agree from index `m` on have
prefixes of length `m` that are rearrangements of each other. -/
theorem perm_take_of_resto (l1 l2 : List Componente) (m : Nat) (hp : l1.Perm l2)
    (hr : ∀ p, m ≤ p → pos l1 p = pos l2 p) : (l1.take m).Perm (l2.take m) := by
  have hl : l1.length = l2.length := hp.length_eq
  have hd : l1.drop m = l2.drop m := by
    apply List.ext_getElem (by simp [hl])
    intro k h1 h2
    rw [List.getElem_drop, List.getElem_drop]
    have h3 : m + k < l1.length := by
      simp only [List.length_drop] at h1; omega
    have := hr (m + k) (by omega)
    rwa [pos_eq_getElem l1 _ h3, pos_eq_getElem l2 _ (by omega)] at this
  have h : (l1.take m ++ l1.drop m).Perm (l2.take m ++ l2.drop m) := by
    rwa [List.take_append_drop, List.take_append_drop]
  rw [hd] at h
  exact (List.perm_append_right_iff _).1 h

theorem range_filter_lt_iff (f : Nat → Bool) (j : Nat) :
    ((List.range j).filter f).length < j ↔ ∃ k, k < j ∧ f k = false := by
  constructor
  · intro h
    by_contra hc
    have hall : ∀ k, k < j → f k = true := fun k hk => by
      cases hf : f k
      · exact absurd ⟨k, hk, hf⟩ hc
      · rfl
    have := range_filter_todos f j hall
    omega
  · rintro ⟨k, hk, hf⟩
    have hle := range_filter_le f j
    have hne : ((List.range j).filter f).length ≠ j := fun he => by
      have h1 : ((List.range j).filter f).length = (List.range j).length := by simpa using he
      have h2 := (List.filter_length_eq_length (p := f) (l := List.range j)).1 h1 k
        (List.mem_range.2 hk)
      rw [hf] at h2
      exact absurd h2 (by decide)
    omega

/-- Some earlier type is not greater than `type[i]` exactly when the earlier
types greater than it are fewer than `i`. -/
theorem temAnterior_iff (arr : List Componente) (i : Nat) :
    temAnteriorMenorOuIgual arr i = true ↔ inversoesAte arr i < i := by
  unfold temAnteriorMenorOuIgual inversoesAte
  rw [range_filter_lt_iff, List.any_eq_true]
  constructor
  · rintro ⟨k, hk, h⟩
    refine ⟨k, List.mem_range.1 hk, ?_⟩
    simp only [decide_eq_true_eq] at h
    simp only [decide_eq_false_iff_not]
    omega
  · rintro ⟨k, hk, h⟩
    refine ⟨k, List.mem_range.2 hk, ?_⟩
    simp only [decide_eq_false_iff_not] at h
    simp only [decide_eq_true_eq]
    omega

theorem range_map_sum_succ (f : Nat → Nat) (m : Nat) :
    ((List.range (m + 1)).map f).sum = ((List.range m).map f).sum + f m := by
  rw [List.range_succ, List.map_append, List.sum_append]
  simp

/-- The outer loop of the insertion sort from index `i` on adds, for each
index still to come, its inversions and one more when an earlier type is not
greater. -/
theorem insertOuter_conta (arr0 : List Componente) (n : Nat) (hn0 : arr0.length = n) :
    ∀ (k i : Nat) (arr : List Componente) (cnt : Nat),
      i + k = n → arr.Perm arr0 → (∀ p, i ≤ p → pos arr p = pos arr0 p) →
      (∀ p q, p < q → q < i → strcmp (pos arr p).tipo (pos arr q).tipo ≤ 0) →
      (insertOuter k i (arr, cnt)).2 + ((List.range i).map (inversoesAte arr0)).sum +
          ((List.range i).filter (temAnteriorMenorOuIgual arr0)).length =
        cnt + ((List.range n).map (inversoesAte arr0)).sum +
          ((List.range n).filter (temAnteriorMenorOuIgual arr0)).length
  | 0, i, arr, cnt, hk, _, _, _ => by
    have : i = n := by omega
    subst this
    rfl
  | k + 1, i, arr, cnt, hk, hperm, hresto, hs => by
    have hlen : arr.length = n := hperm.length_eq.trans hn0
    have hch : pos arr i = pos arr0 i := hresto i (le_refl _)
    have hG : ((List.range i).filter
        (fun k => decide (strcmp (pos arr k).tipo (pos arr i).tipo > 0))).length =
        inversoesAte arr0 i := by
      unfold inversoesAte
      rw [← hch]
      exact (range_filter_eq_countP
          (fun c => decide (strcmp c.tipo (pos arr i).tipo > 0)) arr i (by omega)).trans
        (((perm_take_of_resto arr arr0 i hperm hresto).countP_eq _).trans
          (range_filter_eq_countP
            (fun c => decide (strcmp c.tipo (pos arr i).tipo > 0)) arr0 i (by omega)).symm)
    have hc := insertLoop_conta (pos arr i) i arr cnt hs
    rw [hG] at hc
    have hinv : InsInv arr i (pos arr i) (arr.set i (pos arr i)) i := by
      rw [set_pos_self]
      exact ⟨List.Perm.refl _, fun p q hpq hq _ hqi => hs p q hpq (by omega),
        fun q h1 h2 => by omega⟩
    obtain ⟨h1, h2⟩ := insertLoop_spec arr i (pos arr i) i arr cnt (le_refl _) (by omega) hinv
    have h3 := insertLoop_resto (pos arr i) i arr cnt
    rw [insertOuter]
    generalize insertLoop (pos arr i) i (arr, cnt) = r at hc h1 h2 h3
    obtain ⟨arr1, cnt1⟩ := r
    simp only at hc h1 h2 h3
    have ih := insertOuter_conta arr0 n hn0 k (i + 1) arr1 cnt1 (by omega) (h1.trans hperm)
      (fun p hp => (h3 p (by omega)).trans (hresto p (by omega)))
      (fun p q hpq hq => h2 p q hpq (by omega))
    rw [range_map_sum_succ, range_filter_succ] at ih
    have ht : (if temAnteriorMenorOuIgual arr0 i = true then 1 else 0) =
        (if inversoesAte arr0 i < i then 1 else 0) := by
      by_cases h : inversoesAte arr0 i < i
      · rw [if_pos h, if_pos ((temAnterior_iff arr0 i).2 h)]
      · rw [if_neg h, if_neg (fun hc => h ((temAnterior_iff arr0 i).1 hc))]
    rw [ht] at ih
    omega

/-- The count reported by the insertion sort. -/
theorem insertionSortTipo_conta (arr : List Componente) :
    (insertionSortTipo arr).2 = inversoesTipo arr + paradasTipo arr := by
  unfold insertionSortTipo inversoesTipo paradasTipo
  cases arr with
  | nil => rfl
  | cons a t =>
    have h := insertOuter_conta (a :: t) (a :: t).length rfl ((a :: t).length - 1) 1 (a :: t) 0
      (by simp; omega) (List.Perm.refl _) (fun _ _ => rfl) (fun p q hpq hq => by omega)
    have e1 : ((List.range 1).map (inversoesAte (a :: t))).sum = 0 := by
      simp [List.range_succ, inversoesAte]
    have e2 : ((List.range 1).filter (temAnteriorMenorOuIgual (a :: t))).length = 0 := by
      simp [List.range_succ, temAnteriorMenorOuIgual]
    rw [e1, e2] at h
    omega

/-- The sum `0 + 1 + ... + (m - 1)`. -/
theorem range_map_sum_id (f : Nat → Nat) :
    ∀ m, (∀ i, i < m → f i = i) → ((List.range m).map f).sum = m * (m - 1) / 2
  | 0, _ => by simp
  | m + 1, h => by
    rw [range_map_sum_succ, range_map_sum_id f m (fun i hi => h i (by omega)), h m (by omega)]
    simp only [Nat.add_sub_cancel]
    cases m with
    | zero => simp
    | succ j =>
      simp only [Nat.add_sub_cancel]
      have e : (j + 1 + 1) * (j + 1) = (j + 1) * j + 2 * (j + 1) := by ring
      rw [e, Nat.add_mul_div_left _ _ (by norm_num : 0 < 2)]

/-- When the records passing a test come out in the order in which they went
in, two such records that stand in some order in the input stand in the same
order in the output. -/
theorem par_na_mesma_ordem (f : Componente → Bool) (entrada saida : List Componente)
    (h : saida.filter f = entrada.filter f) (a b : Componente)
    (ha : f a = true) (hb : f b = true) (hs : List.Sublist [a, b] entrada) :
    List.Sublist [a, b] saida := by
  have h1 : List.Sublist ([a, b].filter f) (entrada.filter f) := hs.filter f
  have h2 : [a, b].filter f = [a, b] := by simp [ha, hb]
  rw [h2, ← h] at h1
  exact h1.trans (List.filter_sublist saida)

/-! ## The claims -/

/-- C1: for every input array, `bubbleSortNome` leaves a permutation of the
input records (whole records, with multiplicity) that is non-decreasing by
name under `strcmp`; the statement covers the runs that stop early on a pass
without swaps. -/
theorem C1_bubbleSortNome_ordena (arr : List Componente) :
    (bubbleSortNome arr).1.Perm arr ∧
    (bubbleSortNome arr).1.Pairwise (fun a b => strcmp a.nome b.nome ≤ 0) :=
  bubbleSortNome_perm_sorted arr

/-- C2: for every input array, `insertionSortTipo` leaves a permutation of the
input records that is non-decreasing by type under `strcmp`. -/
theorem C2_insertionSortTipo_ordena (arr : List Componente) :
    (insertionSortTipo arr).1.Perm arr ∧
    (insertionSortTipo arr).1.Pairwise (fun a b => strcmp a.tipo b.tipo ≤ 0) :=
  insertionSortTipo_perm_sorted arr

/-- C3: for every input array, `selectionSortPrioridade` leaves a permutation
of the input records that is non-decreasing by the integer priority. -/
theorem C3_selectionSortPrioridade_ordena (arr : List Componente) :
    (selectionSortPrioridade arr).1.Perm arr ∧
    (selectionSortPrioridade arr).1.Pairwise (fun a b => a.prioridade ≤ b.prioridade) :=
  selectionSortPrioridade_perm_sorted arr

/-- C4: on an array in ascending order by name, `buscaBinariaPorNome` returns;
when some record holds the key as its name the result is an index `i` with
`0 <= i < n` whose record holds the key, and when no record does the result
is `-1`. On [Ana, Mid, Zed] the key "Ana" is found at index 0. -/
theorem C4_buscaBinaria_correta :
    (∀ (arr : List Componente) (chave : List Nat),
      arr.Pairwise (fun a b => strcmp a.nome b.nome ≤ 0) →
      ∃ r, buscaBinariaPorNome arr chave = some r ∧
        ((∃ c ∈ arr, cstr c.nome = cstr chave) →
          0 ≤ r.idx ∧ r.idx < arr.length ∧ cstr (pos arr r.idx.toNat).nome = cstr chave) ∧
        ((∀ c ∈ arr, cstr c.nome ≠ cstr chave) → r.idx = -1)) ∧
    (∃ r, buscaBinariaPorNome [cAna, cMid, cZed] sAna = some r ∧ r.idx = 0) := by
  refine ⟨fun arr chave hs => ?_, ⟨⟨0, 2, [1, 0]⟩, by decide, rfl⟩⟩
  obtain ⟨r, he, -, -⟩ := buscaBinariaPorNome_conta arr chave
  have hidx := pos_of_pairwise _ arr hs
  have h1 := buscaLoop_achado arr chave _ _ _ _ _ r he
  have h2 := buscaLoop_ausente arr chave hidx _ _ _ _ _ r he (le_refl _) (by omega)
  refine ⟨r, he, ?_, ?_⟩
  · rintro ⟨c, hc, hcc⟩
    rcases h1 with h1 | ⟨h3, h4, h5⟩
    · exfalso
      obtain ⟨p, hp, hpc⟩ := List.getElem_of_mem hc
      have := h2 h1 p (by omega) (by omega)
      rw [pos_eq_getElem arr p hp, hpc] at this
      exact this ((strcmp_eq_zero_iff _ _).2 hcc)
    · exact ⟨h3, by omega, (strcmp_eq_zero_iff _ _).1 h5⟩
  · intro hnone
    rcases h1 with h1 | ⟨h3, h4, h5⟩
    · exact h1
    · exfalso
      have hlt : r.idx.toNat < arr.length := by omega
      refine hnone (pos arr r.idx.toNat) ?_ ((strcmp_eq_zero_iff _ _).1 h5)
      rw [pos_eq_getElem arr _ hlt]
      exact List.getElem_mem _

/-- Witness of C4 on the array [Ana, Mid, Zed], which is in order by name. -/
theorem C4_witness :
    [cAna, cMid, cZed].Pairwise (fun a b => strcmp a.nome b.nome ≤ 0) ∧
    ∃ r, buscaBinariaPorNome [cAna, cMid, cZed] sMid = some r ∧
      ((∃ c ∈ [cAna, cMid, cZed], cstr c.nome = cstr sMid) →
        0 ≤ r.idx ∧ r.idx < ([cAna, cMid, cZed] : List Componente).length ∧
          cstr (pos [cAna, cMid, cZed] r.idx.toNat).nome = cstr sMid) ∧
      ((∀ c ∈ [cAna, cMid, cZed], cstr c.nome ≠ cstr sMid) → r.idx = -1) :=
  ⟨by decide, C4_buscaBinaria_correta.1 [cAna, cMid, cZed] sMid (by decide)⟩

/-- C5: whatever the records entered and whatever the list of menu inputs,
the array `componentes` after the run is the array as entered; each single
turn of the menu leaves it as it was. -/
theorem C5_original_intacto (comps : List Componente) (cmds : List Entrada) :
    (executar (inicio comps) cmds).1.componentes = comps ∧
    ∀ (s : Sessao) (e : Entrada), (passo s e).1.componentes = s.componentes :=
  ⟨executar_componentes cmds (inicio comps), passo_componentes⟩

/-- C6: `selectionSortPrioridade` reports `n * (n - 1) / 2` comparisons on
every array of length `n`, whatever the records hold; on any five records
with priorities 5, 2, 4, 1, 3 the count is 10. -/
theorem C6_selection_comparacoes :
    (∀ arr : List Componente,
      (selectionSortPrioridade arr).2 = arr.length * (arr.length - 1) / 2) ∧
    (∀ arr : List Componente, arr.map (fun c => c.prioridade) = [5, 2, 4, 1, 3] →
      (selectionSortPrioridade arr).2 = 10) := by
  have h : ∀ arr : List Componente,
      (selectionSortPrioridade arr).2 = arr.length * (arr.length - 1) / 2 := fun arr => by
    unfold selectionSortPrioridade
    rw [selOuter_count arr.length (arr.length - 1) 0 arr 0 (by omega)]
    cases arr.length with
    | zero => simp
    | succ m => simp [Nat.mul_comm]
  refine ⟨h, fun arr ha => ?_⟩
  have hl : arr.length = 5 := by
    have := congrArg List.length ha
    simpa using this
  rw [h arr, hl]

/-- Witness of C6 on five records with priorities 5, 2, 4, 1, 3. -/
theorem C6_witness :
    (selectionSortPrioridade
      [⟨sZed, sRifle, 5⟩, ⟨sAna, sArmor, 2⟩, ⟨sMid, sMedkit, 4⟩, ⟨sAna, sRifle, 1⟩,
        ⟨sMid, sArmor, 3⟩]).2 = 10 :=
  C6_selection_comparacoes.2 _ (by decide)

/-- C7: on an array of `n >= 1` records already non-decreasing by name,
`bubbleSortNome` returns the array unchanged with `n - 1` comparisons; the
first pass leaves `trocou` at 0 (no swap), and the outer loop stops after it
however many iterations it had left. -/
theorem C7_bubble_ja_ordenado (arr : List Componente) (hn : 1 ≤ arr.length)
    (hs : arr.Pairwise (fun a b => strcmp a.nome b.nome ≤ 0)) :
    bubbleSortNome arr = (arr, arr.length - 1) ∧
    bubblePass (arr.length - 1) 0 (arr, 0, false) = (arr, arr.length - 1, false) ∧
    ∀ k, bubbleOuter (k + 1) arr.length 0 (arr, 0) = (arr, arr.length - 1) := by
  have hidx := pos_of_pairwise _ arr hs
  have hpass : bubblePass (arr.length - 1) 0 (arr, 0, false) = (arr, arr.length - 1, false) := by
    have := bubblePass_sem_troca (arr.length - 1) 0 arr 0 false
      (fun p _ hp => hidx p (p + 1) (by omega) (by omega))
    simpa using this
  have hout : ∀ k, bubbleOuter (k + 1) arr.length 0 (arr, 0) = (arr, arr.length - 1) := by
    intro k
    rw [bubbleOuter, Nat.sub_zero, hpass]
    rfl
  refine ⟨?_, hpass, hout⟩
  unfold bubbleSortNome
  cases hk : arr.length - 1 with
  | zero => rfl
  | succ k => rw [← hk, hk, hout k, hk]

/-- Witness of C7 on the array [Ana, Mid, Zed]. -/
theorem C7_witness :
    1 ≤ ([cAna, cMid, cZed] : List Componente).length ∧
    [cAna, cMid, cZed].Pairwise (fun a b => strcmp a.nome b.nome ≤ 0) ∧
    bubbleSortNome [cAna, cMid, cZed] = ([cAna, cMid, cZed], 2) :=
  ⟨by decide, by decide, (C7_bubble_ja_ordenado [cAna, cMid, cZed] (by decide) (by decide)).1⟩

/-- C8: for every array of `n` records and every key, `buscaBinariaPorNome`
returns with a comparison count `k` equal to the number of indices it read,
and `k = 0` or `2 ^ (k - 1) <= n`, that is `k <= ceil(log2(n + 1))`; for
`n = 7` the count is at most 3, whether or not the key is present. -/
theorem C8_buscaBinaria_comparacoes (arr : List Componente) (chave : List Nat) :
    ∃ r, buscaBinariaPorNome arr chave = some r ∧
      r.comparacoes = r.sondas.length ∧
      (r.comparacoes = 0 ∨ 2 ^ (r.comparacoes - 1) ≤ arr.length) ∧
      r.comparacoes ≤ Nat.clog 2 (arr.length + 1) ∧
      (arr.length = 7 → r.comparacoes ≤ 3) := by
  obtain ⟨r, he, h1, h2⟩ := buscaBinariaPorNome_conta arr chave
  have hclog : r.comparacoes ≤ Nat.clog 2 (arr.length + 1) := by
    rcases h2 with h2 | h2
    · omega
    · have : r.comparacoes - 1 < Nat.clog 2 (arr.length + 1) :=
        (Nat.pow_lt_iff_lt_clog (by norm_num)).1 (by omega)
      omega
  refine ⟨r, he, h1, h2, hclog, fun h7 => ?_⟩
  have h8 : Nat.clog 2 (7 + 1) ≤ 3 := (Nat.le_pow_iff_clog_le (by norm_num)).1 (by norm_num)
  rw [h7] at hclog
  omega

/-- C9: a search request (option 5) made while there is no working copy
prints the advisory and nothing else (no sort result, no search outcome) and
leaves the whole session state as it was; made while a working copy `w` is
held, it prints the outcome of `buscaBinariaPorNome` run on `w` with the key
read, and keeps the records and the working copy. -/
theorem C9_busca_sem_copia (s : Sessao) (e : Entrada) (he : e.opcao = 5) :
    (s.arrTrabalho = none → passo s e = (s, [Saida.avisoSemVetor])) ∧
    (∀ w, s.arrTrabalho = some w →
      passo s e = ({ s with chave := e.chave }, [Saida.busca (buscaBinariaPorNome w e.chave)])) := by
  have hp : passo s e = match s.arrTrabalho with
      | none => (s, [Saida.avisoSemVetor])
      | some w =>
        ({ s with chave := e.chave }, [Saida.busca (buscaBinariaPorNome w e.chave)]) := by
    unfold passo
    rw [he]
    rfl
  refine ⟨fun hn => ?_, fun w hw => ?_⟩
  · rw [hp, hn]
  · rw [hp, hw]

/-- Witness of C9: a search on the fresh session prints the advisory only; a
search after a sort by name finds "Ana" at index 0 of the working copy. -/
theorem C9_witness :
    passo (inicio [cZed, cAna, cMid]) ⟨5, true, sAna⟩ =
      (inicio [cZed, cAna, cMid], [Saida.avisoSemVetor]) ∧
    (passo (executar (inicio [cZed, cAna, cMid]) [⟨2, true, []⟩]).1 ⟨5, true, sAna⟩).2 =
      [Saida.busca (some ⟨0, 2, [1, 0]⟩)] :=
  ⟨(C9_busca_sem_copia (inicio [cZed, cAna, cMid]) ⟨5, true, sAna⟩ rfl).1 rfl,
    by rw [(C9_busca_sem_copia _ ⟨5, true, sAna⟩ rfl).2 [cAna, cMid, cZed] (by decide)]; decide⟩

/-- C10, as stated, fails: with the records of `dadosTipo`, after the single
request "sort by type" (no sort by name has run) a search for "Ana" does not
print the advisory; the binary search runs on the copy sorted by type, whose
names are Zed, Mid, Ana, and reports not found after 2 comparisons. -/
theorem C10_counterexample :
    (∀ c ∈ [(⟨3, true, []⟩ : Entrada)], c.opcao ≠ 2) ∧
    (executar (inicio dadosTipo) [⟨3, true, []⟩]).1.arrTrabalho =
      some [⟨sZed, sArmor, 2⟩, ⟨sMid, sMedkit, 3⟩, ⟨sAna, sRifle, 1⟩] ∧
    (passo (executar (inicio dadosTipo) [⟨3, true, []⟩]).1 ⟨5, true, sAna⟩).2 =
      [Saida.busca (some ⟨-1, 2, [1, 0]⟩)] ∧
    (passo (executar (inicio dadosTipo) [⟨3, true, []⟩]).1 ⟨5, true, sAna⟩).2 ≠
      [Saida.avisoSemVetor] := by
  decide

/-- C10, amended: after any list of menu inputs the working copy is the one
left by the most recent sort request of any of the three kinds (none when
there was no such request or its clone could not be made). A search request
then prints the advisory, changing nothing, when there is no working copy,
which is the case whenever no sort request of any kind came before; otherwise
it runs the binary search on that working copy. -/
theorem C10_busca_apos_ordenacao (comps : List Componente) (cmds : List Entrada)
    (e : Entrada) (he : e.opcao = 5) :
    (executar (inicio comps) cmds).1.arrTrabalho = copiaEsperada comps cmds ∧
    (copiaEsperada comps cmds = none →
      passo (executar (inicio comps) cmds).1 e =
        ((executar (inicio comps) cmds).1, [Saida.avisoSemVetor])) ∧
    (∀ w, copiaEsperada comps cmds = some w →
      (passo (executar (inicio comps) cmds).1 e).2 =
        [Saida.busca (buscaBinariaPorNome w e.chave)]) ∧
    ((∀ c ∈ cmds, ehOrdenacao c.opcao = false) → copiaEsperada comps cmds = none) := by
  have h1 : (executar (inicio comps) cmds).1.arrTrabalho = copiaEsperada comps cmds := by
    rw [executar_arrTrabalho cmds (inicio comps)]
    unfold copiaEsperada
    cases ultimaOrdenacao cmds <;> rfl
  have hp : ∀ s : Sessao, passo s e = match s.arrTrabalho with
      | none => (s, [Saida.avisoSemVetor])
      | some w =>
        ({ s with chave := e.chave }, [Saida.busca (buscaBinariaPorNome w e.chave)]) := by
    intro s
    unfold passo
    rw [he]
    rfl
  refine ⟨h1, fun hn => ?_, fun w hw => ?_, fun hno => ?_⟩
  · rw [hp, h1, hn]
  · rw [hp, h1, hw]
  · unfold copiaEsperada
    rw [ultimaOrdenacao_none_of_sem_ordenacao cmds hno]

/-- Witness of the amended C10: after "sort by type" then "show", a search
runs on the copy sorted by type. -/
theorem C10_witness :
    (⟨5, true, sAna⟩ : Entrada).opcao = 5 ∧
    (executar (inicio dadosTipo) [⟨3, true, []⟩, ⟨1, true, []⟩]).1.arrTrabalho =
      copiaEsperada dadosTipo [⟨3, true, []⟩, ⟨1, true, []⟩] ∧
    copiaEsperada dadosTipo [⟨3, true, []⟩, ⟨1, true, []⟩] =
      some (insertionSortTipo dadosTipo).1 :=
  ⟨rfl, (C10_busca_apos_ordenacao dadosTipo [⟨3, true, []⟩, ⟨1, true, []⟩]
    ⟨5, true, sAna⟩ rfl).1, by decide⟩

/-- C11, as stated, fails: with a working copy held after a sort by name, a
sort request whose clone cannot be made leaves the session with no working
copy (the old one was freed before the clone was tried), and a following
search prints the advisory instead of seeing the previous working copy. -/
theorem C11_counterexample :
    (executar (inicio [cZed, cAna, cMid]) [⟨2, true, []⟩]).1.arrTrabalho =
      some [cAna, cMid, cZed] ∧
    (passo (executar (inicio [cZed, cAna, cMid]) [⟨2, true, []⟩]).1
      ⟨3, false, []⟩).1.arrTrabalho = none ∧
    (executar (inicio [cZed, cAna, cMid])
      [⟨2, true, []⟩, ⟨3, false, []⟩, ⟨5, true, sAna⟩]).2.getLast? =
      some Saida.avisoSemVetor := by
  decide

/-- C11, amended: for every session state and every sort request whose clone
cannot be made, the turn prints the allocation error and runs no algorithm;
the original records, the comparison counter and the key buffer stay as they
were, and the session is left with no working copy, so that a search request
coming next prints the advisory. -/
theorem C11_falha_de_alocacao (s : Sessao) (e : Entrada)
    (ho : ehOrdenacao e.opcao = true) (hm : e.mallocOk = false) :
    passo s e = ({ s with arrTrabalho := none }, [Saida.erroAlocacao]) ∧
    (passo s e).1.componentes = s.componentes ∧
    ∀ e2 : Entrada, e2.opcao = 5 →
      passo (passo s e).1 e2 = ((passo s e).1, [Saida.avisoSemVetor]) := by
  have h := passo_ordenar_falha s e ho hm
  refine ⟨h, passo_componentes s e, fun e2 he2 => ?_⟩
  exact passo_busca_sem_copia _ e2 he2 (by rw [h])

/-- Witness of the amended C11: a failed sort by type after a sort by name. -/
theorem C11_witness :
    passo (executar (inicio [cZed, cAna, cMid]) [⟨2, true, []⟩]).1 ⟨3, false, []⟩ =
      ({ (executar (inicio [cZed, cAna, cMid]) [⟨2, true, []⟩]).1 with arrTrabalho := none },
        [Saida.erroAlocacao]) :=
  (C11_falha_de_alocacao _ ⟨3, false, []⟩ (by decide) rfl).1

/-- C14: `bubbleSortNome` on [("Zed","Rifle",3), ("Ana","Armor",1),
("Mid","Medkit",2)] gives Ana, Mid, Zed, each with its own type and priority,
and reports 3 comparisons: 2 in the first pass, which swaps, and 1 in the
second, which does not. -/
theorem C14_cenario_bubble :
    bubbleSortNome [cZed, cAna, cMid] = ([cAna, cMid, cZed], 3) ∧
    [cAna, cMid, cZed] =
      [(⟨sAna, sArmor, 1⟩ : Componente), ⟨sMid, sMedkit, 2⟩, ⟨sZed, sRifle, 3⟩] ∧
    bubblePass 2 0 ([cZed, cAna, cMid], 0, false) = ([cAna, cMid, cZed], 2, true) ∧
    bubblePass 1 0 ([cAna, cMid, cZed], 2, false) = ([cAna, cMid, cZed], 3, false) := by
  decide

/-- C15: from the state reached after any list of menu inputs, a sort request
whose clone is made leaves as working copy and as comparison count the array
and the count of its algorithm run on the records as entered, and prints
them; so two requests for the same sort, whatever came before each, give the
same working copy, the same count and the same output. -/
theorem C15_ordenacao_reprodutivel (comps : List Componente) (cmds : List Entrada)
    (e : Entrada) (ho : ehOrdenacao e.opcao = true) (hm : e.mallocOk = true) :
    (passo (executar (inicio comps) cmds).1 e).1.arrTrabalho =
      some (algoritmoDe e.opcao comps).1 ∧
    (passo (executar (inicio comps) cmds).1 e).1.comparacoes = (algoritmoDe e.opcao comps).2 ∧
    (passo (executar (inicio comps) cmds).1 e).2 =
      [Saida.resultado e.opcao (algoritmoDe e.opcao comps).2,
        Saida.lista (algoritmoDe e.opcao comps).1] ∧
    (∀ cmds2 : List Entrada,
      (passo (executar (inicio comps) cmds2).1 e).1.arrTrabalho =
        (passo (executar (inicio comps) cmds).1 e).1.arrTrabalho ∧
      (passo (executar (inicio comps) cmds2).1 e).1.comparacoes =
        (passo (executar (inicio comps) cmds).1 e).1.comparacoes ∧
      (passo (executar (inicio comps) cmds2).1 e).2 =
        (passo (executar (inicio comps) cmds).1 e).2) ∧
    algoritmoDe 2 = bubbleSortNome ∧ algoritmoDe 3 = insertionSortTipo ∧
    algoritmoDe 4 = selectionSortPrioridade := by
  have h : ∀ c : List Entrada,
      (passo (executar (inicio comps) c).1 e).1.arrTrabalho =
        some (algoritmoDe e.opcao comps).1 ∧
      (passo (executar (inicio comps) c).1 e).1.comparacoes = (algoritmoDe e.opcao comps).2 ∧
      (passo (executar (inicio comps) c).1 e).2 =
        [Saida.resultado e.opcao (algoritmoDe e.opcao comps).2,
          Saida.lista (algoritmoDe e.opcao comps).1] := by
    intro c
    have h1 := passo_ordenar (executar (inicio comps) c).1 e ho hm
    have h2 : (executar (inicio comps) c).1.componentes = comps :=
      executar_componentes c (inicio comps)
    rw [h1, h2]
    exact ⟨rfl, rfl, rfl⟩
  obtain ⟨a1, a2, a3⟩ := h cmds
  refine ⟨a1, a2, a3, fun cmds2 => ?_, rfl, rfl, rfl⟩
  obtain ⟨b1, b2, b3⟩ := h cmds2
  exact ⟨b1.trans a1.symm, b2.trans a2.symm, b3.trans a3.symm⟩

/-- Witness of C15: a sort by name requested after a sort by type and a
search gives the outcome of `bubbleSortNome` on the records as entered. -/
theorem C15_witness :
    (passo (executar (inicio [cZed, cAna, cMid]) [⟨3, true, []⟩, ⟨5, true, sAna⟩]).1
      ⟨2, true, []⟩).1.arrTrabalho = some (bubbleSortNome [cZed, cAna, cMid]).1 ∧
    (passo (executar (inicio [cZed, cAna, cMid]) [⟨3, true, []⟩, ⟨5, true, sAna⟩]).1
      ⟨2, true, []⟩).1.comparacoes = (bubbleSortNome [cZed, cAna, cMid]).2 :=
  ⟨(C15_ordenacao_reprodutivel [cZed, cAna, cMid] [⟨3, true, []⟩, ⟨5, true, sAna⟩]
      ⟨2, true, []⟩ (by decide) rfl).1,
    (C15_ordenacao_reprodutivel [cZed, cAna, cMid] [⟨3, true, []⟩, ⟨5, true, sAna⟩]
      ⟨2, true, []⟩ (by decide) rfl).2.1⟩

/-- C17: `selectionSortPrioridade` is not stable. On the records Ana, Mid, Zed
with priorities 2, 2, 1 the output is Zed, Mid, Ana: the two records of
priority 2 come out as Mid, Ana although they went in as Ana, Mid. -/
theorem C17_selection_nao_estavel :
    (selectionSortPrioridade dadosEmpate).1 =
      [⟨sZed, sArmor, 1⟩, ⟨sMid, sRifle, 2⟩, ⟨sAna, sRifle, 2⟩] ∧
    dadosEmpate.filter (fun c => decide (c.prioridade = 2)) =
      [⟨sAna, sRifle, 2⟩, ⟨sMid, sRifle, 2⟩] ∧
    (selectionSortPrioridade dadosEmpate).1.filter (fun c => decide (c.prioridade = 2)) =
      [⟨sMid, sRifle, 2⟩, ⟨sAna, sRifle, 2⟩] ∧
    List.Sublist [⟨sAna, sRifle, 2⟩, ⟨sMid, sRifle, 2⟩] dadosEmpate ∧
    ¬ List.Sublist [⟨sAna, sRifle, 2⟩, ⟨sMid, sRifle, 2⟩] (selectionSortPrioridade dadosEmpate).1 ∧
    ¬ ∀ (arr : List Componente) (p : Int),
      (selectionSortPrioridade arr).1.filter (fun c => decide (c.prioridade = p)) =
        arr.filter (fun c => decide (c.prioridade = p)) := by
  refine ⟨by decide, by decide, by decide, by decide, by decide, fun h => ?_⟩
  have := h dadosEmpate 2
  revert this
  decide

/-- C18: on the name-sorted array of three records all named "Mid", the
search for "Mid" returns index 1, which is neither the lowest (0) nor the
highest (2) index holding the key. In general the index returned, when there
is one, is the last index read, its name compares equal to the key, and no
index read before it holds a name equal to the key. -/
theorem C18_busca_duplicados :
    dadosIguais.Pairwise (fun a b => strcmp a.nome b.nome ≤ 0) ∧
    (∀ c ∈ dadosIguais, cstr c.nome = cstr sMid) ∧
    buscaBinariaPorNome dadosIguais sMid = some ⟨1, 1, [1]⟩ ∧
    (∀ (arr : List Componente) (chave : List Nat) (r : ResultadoBusca),
      buscaBinariaPorNome arr chave = some r → r.idx ≠ -1 →
      ∃ antes, r.sondas = antes ++ [r.idx] ∧
        (∀ m ∈ antes, cstr (pos arr m.toNat).nome ≠ cstr chave) ∧
        cstr (pos arr r.idx.toNat).nome = cstr chave) := by
  refine ⟨by decide, by decide, by decide, fun arr chave r he hr => ?_⟩
  rcases buscaLoop_primeira arr chave _ _ _ _ _ r he (by simp) with h | ⟨antes, h1, h2, h3⟩
  · exact absurd h hr
  · exact ⟨antes, h1, fun m hm hc => h2 m hm ((strcmp_eq_zero_iff _ _).2 hc),
      (strcmp_eq_zero_iff _ _).1 h3⟩

/-- C19: for every array, sorted or not, and every key, `buscaBinariaPorNome`
returns; every index it read lies in `0 .. n-1`, and the result is `-1` or an
index in `0 .. n-1` whose record holds the key as its name. -/
theorem C19_busca_segura (arr : List Componente) (chave : List Nat) :
    ∃ r, buscaBinariaPorNome arr chave = some r ∧
      (∀ m ∈ r.sondas, 0 ≤ m ∧ m < arr.length) ∧
      (r.idx = -1 ∨
        (0 ≤ r.idx ∧ r.idx < arr.length ∧ cstr (pos arr r.idx.toNat).nome = cstr chave)) := by
  obtain ⟨r, he, -, -⟩ := buscaBinariaPorNome_conta arr chave
  refine ⟨r, he, ?_, ?_⟩
  · exact buscaLoop_limites arr chave _ _ _ _ _ r he (le_refl _) (by omega) (by simp)
  · rcases buscaLoop_achado arr chave _ _ _ _ _ r he with h | ⟨h1, h2, h3⟩
    · exact Or.inl h
    · exact Or.inr ⟨h1, by omega, (strcmp_eq_zero_iff _ _).1 h3⟩

/-- C12: `insertionSortTipo` is stable: for every input and every type `k`,
the records whose type is `k` come out in the order in which they went in; so
two records of equal type, the first before the second in the input, stand
in that order in the output. -/
theorem C12_insertion_estavel (arr : List Componente) :
    (∀ k : List Nat,
      (insertionSortTipo arr).1.filter (fun c => decide (cstr c.tipo = k)) =
        arr.filter (fun c => decide (cstr c.tipo = k))) ∧
    (∀ a b : Componente, cstr a.tipo = cstr b.tipo → List.Sublist [a, b] arr →
      List.Sublist [a, b] (insertionSortTipo arr).1) := by
  have h : ∀ k : List Nat,
      (insertionSortTipo arr).1.filter (fun c => decide (cstr c.tipo = k)) =
        arr.filter (fun c => decide (cstr c.tipo = k)) := by
    intro k
    unfold insertionSortTipo
    cases arr with
    | nil => rfl
    | cons a t =>
      exact insertOuter_filter k (a :: t).length _ 1 (a :: t) 0 rfl (by simp; omega)
  refine ⟨h, fun a b hab hs => ?_⟩
  exact par_na_mesma_ordem _ arr _ (h (cstr b.tipo)) a b (by simpa using hab) (by simp) hs

/-- C13: `bubbleSortNome` is stable: for every input and every name `k`, the
records whose name is `k` come out in the order in which they went in; so two
records of equal name, the first before the second in the input, stand in
that order in the output. The swap test is strict: a pair of neighbours with
equal names goes through the pass without being exchanged. -/
theorem C13_bubble_estavel (arr : List Componente) :
    (∀ k : List Nat,
      (bubbleSortNome arr).1.filter (fun c => decide (cstr c.nome = k)) =
        arr.filter (fun c => decide (cstr c.nome = k))) ∧
    (∀ a b : Componente, cstr a.nome = cstr b.nome → List.Sublist [a, b] arr →
      List.Sublist [a, b] (bubbleSortNome arr).1) ∧
    (∀ (n j cnt : Nat) (t : Bool), cstr (pos arr j).nome = cstr (pos arr (j + 1)).nome →
      bubblePass (n + 1) j (arr, cnt, t) = bubblePass n (j + 1) (arr, cnt + 1, t)) := by
  have h : ∀ k : List Nat,
      (bubbleSortNome arr).1.filter (fun c => decide (cstr c.nome = k)) =
        arr.filter (fun c => decide (cstr c.nome = k)) :=
    fun k => bubbleOuter_filter k arr.length _ 0 arr 0 rfl
  refine ⟨h, fun a b hab hs => ?_, fun n j cnt t he => ?_⟩
  · exact par_na_mesma_ordem _ arr _ (h (cstr b.nome)) a b (by simpa using hab) (by simp) hs
  · have h0 := (strcmp_eq_zero_iff _ _).2 he
    rw [bubblePass, if_neg (by omega)]

/-- C20: each of the three sorts leaves its own output as it is: sorting the
output of a sort again returns the same list of records, in the same order. -/
theorem C20_reordenar_nao_muda (arr : List Componente) :
    (bubbleSortNome (bubbleSortNome arr).1).1 = (bubbleSortNome arr).1 ∧
    (insertionSortTipo (insertionSortTipo arr).1).1 = (insertionSortTipo arr).1 ∧
    (selectionSortPrioridade (selectionSortPrioridade arr).1).1 =
      (selectionSortPrioridade arr).1 := by
  refine ⟨?_, ?_, ?_⟩
  · rw [bubbleSortNome_de_ordenado _
      (pos_of_pairwise _ _ (bubbleSortNome_perm_sorted arr).2)]
  · rw [insertionSortTipo_de_ordenado _
      (pos_of_pairwise _ _ (insertionSortTipo_perm_sorted arr).2)]
  · exact selectionSortPrioridade_de_ordenado _
      (pos_of_pairwise _ _ (selectionSortPrioridade_perm_sorted arr).2)

/-- C16: the count reported by `insertionSortTipo` is the number of inversions
by type (pairs `k < i` with `type[k] > type[i]`) plus the number of indices
`i` for which some earlier record has `type[k] <= type[i]`; it is `n - 1` on
an input already in order by type and `n * (n - 1) / 2` on an input strictly
decreasing by type. -/
theorem C16_insertion_comparacoes (arr : List Componente) :
    (insertionSortTipo arr).2 = inversoesTipo arr + paradasTipo arr ∧
    (arr.Pairwise (fun a b => strcmp a.tipo b.tipo ≤ 0) →
      (insertionSortTipo arr).2 = arr.length - 1) ∧
    (arr.Pairwise (fun a b => strcmp a.tipo b.tipo > 0) →
      (insertionSortTipo arr).2 = arr.length * (arr.length - 1) / 2) := by
  refine ⟨insertionSortTipo_conta arr, fun hs => ?_, fun hd => ?_⟩
  · rw [insertionSortTipo_de_ordenado arr (pos_of_pairwise _ arr hs)]
  · have hidx := pos_of_pairwise _ arr hd
    have hinv : ∀ i, i < arr.length → inversoesAte arr i = i := fun i hi =>
      range_filter_todos _ i (fun k hk => by
        simp only [decide_eq_true_eq]
        exact hidx k i hk hi)
    have hpar : paradasTipo arr = 0 :=
      range_filter_nenhum _ _ (fun i hi => by
        cases h : temAnteriorMenorOuIgual arr i
        · rfl
        · have := (temAnterior_iff arr i).1 h
          rw [hinv i hi] at this
          omega)
    rw [insertionSortTipo_conta, hpar, Nat.add_zero]
    exact range_map_sum_id _ _ hinv

/-- Witness of C16: on the records of `dadosTipo`, whose types are Rifle,
Armor, Medkit, there are 2 inversions and 1 index with an earlier type not
greater, and the sort reports 3 comparisons. -/
theorem C16_witness :
    inversoesTipo dadosTipo = 2 ∧ paradasTipo dadosTipo = 1 ∧
    (insertionSortTipo dadosTipo).2 = 2 + 1 :=
  ⟨by decide, by decide, by
    have h := (C16_insertion_comparacoes dadosTipo).1
    rw [h]
    decide⟩

end FreeFire
